import Mathlib

/-!
Shallow embedding of the `semver` Go package (parser, comparator, renderer,
mutators, list sorting) and proofs about it.

Strings are modelled as `List Char`. Go compares strings byte-wise on their
UTF-8 encoding; since UTF-8 byte order agrees with code-point order, the
character-list order used here is faithful. Go's `int` is the 64-bit signed
host integer; parsed numeric components are modelled as `Int` together with
the exact clamping behaviour of `strconv.Atoi` (which, on range overflow,
returns the maximum int64 and an error that the Go code discards).
-/

set_option linter.unusedVariables false

/-- Character-class test for ASCII decimal digits, as used throughout
`parse.go` (comparisons `'0' <= c && c <= '9'`). -/
def isDigit (c : Char) : Bool :=
  '0' ≤ c && c ≤ '9'

/-- `isIdentChar` from `parse.go`: valid identifier character in
prerelease/build metadata (`[0-9A-Za-z-]`). -/
def isIdentChar (c : Char) : Bool :=
  ('A' ≤ c && c ≤ 'Z') || ('a' ≤ c && c ≤ 'z') || ('0' ≤ c && c ≤ '9') || c == '-'

/-- `isBadNum` from `parse.go`: the identifier is all digits, has length
greater than one and starts with `'0'` (leading-zero numeric identifier). -/
def isBadNum (v : List Char) : Bool :=
  match v with
  | [] => false
  | c :: _ => v.all isDigit && 1 < v.length && c == '0'

/-- `isNum` from `prerelease.go` / `parse.go`: the string consists entirely
of digits (vacuously true for the empty string, as in the Go code). -/
def isNum (v : List Char) : Bool :=
  v.all isDigit

/-- Numeric value of a digit character (`c - '0'` on bytes). -/
def charVal (c : Char) : Nat :=
  c.toNat - 48

/-- Arithmetic value of a digit run, accumulated left to right exactly as a
decimal integer parser does. -/
def digitsVal (l : List Char) : Nat :=
  l.foldl (fun a c => a * 10 + charVal c) 0

/-- `math.MaxInt64`, the value `strconv.Atoi` clamps to on positive
overflow of the host 64-bit `int`. -/
def maxIntNat : Nat :=
  2 ^ 63 - 1

/-- `parseInt` from `parse.go`: scan the maximal digit run at the front,
reject a missing digit, a multi-digit run with a leading zero, and a run of
more than 19 digits; otherwise convert with `strconv.Atoi`, whose range
error the Go code ignores, so a 19-digit value above `MaxInt64` comes back
clamped to `MaxInt64`.  Returns the value and the unconsumed remainder. -/
def parseInt (raw : List Char) : Option (Int × List Char) :=
  let ds := raw.takeWhile isDigit
  let rest := raw.dropWhile isDigit
  if ds.isEmpty then none
  else if ds.headD ' ' == '0' && 1 < ds.length then none
  else if 19 < ds.length then none
  else some ((min (digitsVal ds) maxIntNat : Nat), rest)

/-- Dot-splitting of an identifier run.  This is `strings.Split(s, ".")`
and also the identifier walk performed by `nextIdent` in `prerelease.go`:
the empty string yields one empty part, and consecutive/leading/trailing
dots yield empty parts. -/
def splitOnDot : List Char → List (List Char)
  | [] => [[]]
  | c :: rest =>
    if c = '.' then [] :: splitOnDot rest
    else
      match splitOnDot rest with
      | [] => [[c]]
      | p :: ps => (c :: p) :: ps

/-- `strings.Join(parts, ".")`, the inverse of `splitOnDot`. -/
def joinDot : List (List Char) → List Char
  | [] => []
  | [p] => p
  | p :: ps => p ++ '.' :: joinDot ps

/-- `parsePrerelease` from `parse.go`: the prerelease run extends to the
first `'+'` or the end of input; every character must be an identifier
character or a dot, and every dot-separated part must be non-empty and not
a leading-zero numeric identifier.  Returns the run and the remainder
(which is empty or starts with `'+'`). -/
def parsePrerelease (raw : List Char) : Option (List Char × List Char) :=
  let pre := raw.takeWhile (fun c => c != '+')
  let rest := raw.dropWhile (fun c => c != '+')
  if pre.all (fun c => isIdentChar c || c == '.') &&
      (splitOnDot pre).all (fun p => !p.isEmpty && !isBadNum p)
  then some (pre, rest) else none

/-- `parseBuild` from `parse.go`: the build run extends to the end of
input; every character must be an identifier character or a dot, and every
dot-separated part must be non-empty (no leading-zero restriction). -/
def parseBuild (raw : List Char) : Option (List Char) :=
  if raw.all (fun c => isIdentChar c || c == '.') &&
      (splitOnDot raw).all (fun p => !p.isEmpty)
  then some raw else none

/-- The presence bitmask from `flags.go`, one named boolean per bit
(`FlagHasV`, `FlagHasMajor`, `FlagHasMinor`, `FlagHasPatch`, `FlagHasPre`,
`FlagHasBuild`). -/
structure Flags where
  hasV : Bool
  hasMajor : Bool
  hasMinor : Bool
  hasPatch : Bool
  hasPre : Bool
  hasBuild : Bool
deriving DecidableEq

/-- The zero bitmask `Flags(0)`. -/
def noFlags : Flags :=
  ⟨false, false, false, false, false, false⟩

/-- The `Semver` struct from `semver.go` (the internal `cursor` cache of
slice bounds is omitted: it is never read by any exported operation). -/
structure Semver where
  original : List Char
  prerelease : List Char
  build : List Char
  major : Int
  minor : Int
  patch : Int
  flags : Flags
  valid : Bool
deriving DecidableEq

/-- The failure value `Semver{Original: orig, Valid: false}` that every
error path of `Parse` and of the mutators returns: all fields other than
`Original` are Go zero values (in particular `Flags` is zero). -/
def invalidSemver (orig : List Char) : Semver :=
  { original := orig, prerelease := [], build := [], major := 0, minor := 0,
    patch := 0, flags := noFlags, valid := false }

/-- Intermediate record holding everything `Parse` has extracted before it
builds the final `Semver` value. -/
structure ParsedParts where
  hasV : Bool
  major : Int
  minor : Int
  patch : Int
  hasMinor : Bool
  hasPatch : Bool
  pre : List Char
  hasPre : Bool
  build : List Char
  hasBuild : Bool
deriving DecidableEq

/-- The tail phase of `Parse` (`parse.go` lines 60-94): after the numeric
core, a `'-'` or `'+'` with the patch flag unset is invalid; otherwise an
optional prerelease (after `'-'`) and an optional build run (after `'+'`)
are scanned and nothing may remain. -/
def parseTail (hv : Bool) (maj mn pt : Int) (hMinor hPatch : Bool) :
    List Char → Option ParsedParts
  | [] => some ⟨hv, maj, mn, pt, hMinor, hPatch, [], false, [], false⟩
  | '-' :: r =>
    if !hPatch then none
    else
      match parsePrerelease r with
      | none => none
      | some (pre, rest2) =>
        match rest2 with
        | [] => some ⟨hv, maj, mn, pt, hMinor, hPatch, pre, true, [], false⟩
        | '+' :: rb =>
          match parseBuild rb with
          | none => none
          | some bld => some ⟨hv, maj, mn, pt, hMinor, hPatch, pre, true, bld, true⟩
        | _ => none
  | '+' :: r =>
    if !hPatch then none
    else
      match parseBuild r with
      | none => none
      | some bld => some ⟨hv, maj, mn, pt, hMinor, hPatch, [], false, bld, true⟩
  | _ => none

/-- The head phase of `Parse` (`parse.go` lines 6-58): empty input fails, a
lone `'v'`/`'V'` fails, the major integer is required, minor and patch are
optional shorthand components each introduced by `'.'`. -/
def parseParts (s : List Char) : Option ParsedParts :=
  match s with
  | [] => none
  | c0 :: rest0 =>
    let hv := c0 == 'v' || c0 == 'V'
    if hv && rest0.isEmpty then none
    else
      let raw := if hv then rest0 else c0 :: rest0
      match parseInt raw with
      | none => none
      | some (maj, r1) =>
        match r1 with
        | '.' :: r2 =>
          match parseInt r2 with
          | none => none
          | some (mn, r3) =>
            match r3 with
            | '.' :: r4 =>
              match parseInt r4 with
              | none => none
              | some (pt, r5) => parseTail hv maj mn pt true true r5
            | _ => parseTail hv maj mn 0 true false r3
        | _ => parseTail hv maj 0 0 false false r1

/-- `Parse` from `parse.go`: a successful scan yields a valid `Semver`
with the major flag always set; any failure yields the invalid value
carrying only the original text. -/
def Parse (s : List Char) : Semver :=
  match parseParts s with
  | none => invalidSemver s
  | some p =>
    { original := s, prerelease := p.pre, build := p.build,
      major := p.major, minor := p.minor, patch := p.patch,
      flags := ⟨p.hasV, true, p.hasMinor, p.hasPatch, p.hasPre, p.hasBuild⟩,
      valid := true }

example : (Parse ((r"v1.2.3-rc.1+b.5").toList)).valid = true := by decide
example : (Parse ((r"v1.2.3-rc.1+b.5").toList)).prerelease = (r"rc.1").toList := by decide
example : (Parse ((r"v1.2.3-rc.1+b.5").toList)).build = (r"b.5").toList := by decide
example : (Parse ((r"v1-pre").toList)).valid = false := by decide
example : (Parse ((r"1.2+meta").toList)).valid = false := by decide
example : (Parse ((r"1.2").toList)).minor = 2 := by decide
example : (Parse ((r"01.1.1").toList)).valid = false := by decide
example : (Parse ((r"1.0.0-0A.is.legal").toList)).valid = true := by decide
example : (Parse ((r"1.2.3-0123").toList)).valid = false := by decide

/-- Go's byte-wise string comparison `a < b` on character lists (UTF-8
byte order coincides with code-point order). -/
def lexLt : List Char → List Char → Bool
  | _, [] => false
  | [], _ :: _ => true
  | x :: xs, y :: ys => if x < y then true else if y < x then false else lexLt xs ys

/-- The body of the comparison loop of `comparePrerelease`
(`prerelease.go` lines 32-57), factored out per identifier pair: equal
identifiers continue the walk (result 0 here); otherwise a numeric
identifier loses to a non-numeric one; two numeric identifiers compare by
digit-string length and then byte-wise; two non-numeric identifiers
compare byte-wise. -/
def identCmp (dx dy : List Char) : Int :=
  if dx = dy then 0
  else if isNum dx ≠ isNum dy then (if isNum dx then -1 else 1)
  else if isNum dx ∧ dx.length < dy.length then -1
  else if isNum dx ∧ dy.length < dx.length then 1
  else if lexLt dx dy then -1 else 1

/-- The identifier walk of `comparePrerelease` (`prerelease.go` lines
26-64): pairs of identifiers are compared left to right; if one side runs
out of identifiers first it is smaller (and when both run out together the
Go loop also answers -1, a case its caller never reaches because equal
strings are filtered first). -/
def cmpPreLists : List (List Char) → List (List Char) → Int
  | [], _ => -1
  | _ :: _, [] => 1
  | dx :: xs, dy :: ys => if dx = dy then cmpPreLists xs ys else identCmp dx dy

/-- `comparePrerelease` from `prerelease.go`: equal strings are equal, the
empty string (release) outranks any prerelease, and otherwise the
dot-separated identifier lists are walked pairwise. -/
def comparePrerelease (a b : List Char) : Int :=
  if a = b then 0
  else if a = [] then 1
  else if b = [] then -1
  else cmpPreLists (splitOnDot a) (splitOnDot b)

/-- `Compare` from `semver.go`: invalid sorts below valid, then the
numeric core is compared component-wise, then a release outranks any
prerelease, and two prereleases delegate to `comparePrerelease`. -/
def Compare (v w : Semver) : Int :=
  if !v.valid && !w.valid then 0
  else if !v.valid then -1
  else if !w.valid then 1
  else if v.major ≠ w.major then (if v.major < w.major then -1 else 1)
  else if v.minor ≠ w.minor then (if v.minor < w.minor then -1 else 1)
  else if v.patch ≠ w.patch then (if v.patch < w.patch then -1 else 1)
  else
    match v.flags.hasPre, w.flags.hasPre with
    | false, false => 0
    | false, true => 1
    | true, false => -1
    | true, true => comparePrerelease v.prerelease w.prerelease

/-- ASCII digit character for a value below ten. -/
def digitChar (d : Nat) : Char :=
  Char.ofNat (48 + d)

/-- Decimal digit emission of `writeInt` (`semver.go`), most significant
first, written with explicit fuel so that it evaluates in the kernel; any
fuel of at least `n` steps produces the digits of `n`. -/
def natDigitsAux : Nat → Nat → List Char
  | 0, _ => []
  | fuel + 1, n => if n = 0 then [] else natDigitsAux fuel (n / 10) ++ [digitChar (n % 10)]

/-- Decimal rendering of a natural number; zero renders as the single
digit `'0'` (the fast path of `writeInt`). -/
def writeIntNat (n : Nat) : List Char :=
  if n = 0 then ['0'] else natDigitsAux n n

/-- `writeInt` from `semver.go`: non-negative decimal rendering; for a
negative argument the Go loop body never runs and nothing is written. -/
def writeInt (x : Int) : List Char :=
  if x < 0 then [] else writeIntNat x.toNat

/-- `HasV` from `flags.go`: the flag, with a fallback for invalid values
that inspects the first character of the original text. -/
def HasV (v : Semver) : Bool :=
  v.flags.hasV || (match v.original with
    | [] => false
    | c :: _ => c == 'v' || c == 'V')

/-- `IsRelease` from `flags.go`: valid with neither prerelease nor build
flags set. -/
def IsRelease (v : Semver) : Bool :=
  v.valid && !(v.flags.hasPre || v.flags.hasBuild)

/-- `HasMajor` from `flags.go`. -/
def HasMajor (v : Semver) : Bool :=
  v.valid && v.flags.hasMajor

/-- `HasMinor` from `flags.go`. -/
def HasMinor (v : Semver) : Bool :=
  v.valid && v.flags.hasMinor

/-- `HasPatch` from `flags.go`. -/
def HasPatch (v : Semver) : Bool :=
  v.valid && v.flags.hasPatch

/-- `HasPre` from `flags.go`. -/
def HasPre (v : Semver) : Bool :=
  v.valid && v.flags.hasPre

/-- `HasBuild` from `flags.go`. -/
def HasBuild (v : Semver) : Bool :=
  v.valid && v.flags.hasBuild

/-- `Canonical` from `semver.go`: `"vMAJOR.MINOR.PATCH[-PRERELEASE]"`,
empty for invalid values, build metadata intentionally stripped, the
prerelease segment only emitted when the flag is set and the text is
non-empty. -/
def Canonical (v : Semver) : List Char :=
  if !v.valid then []
  else
    'v' :: writeInt v.major ++ '.' :: writeInt v.minor ++ '.' :: writeInt v.patch
      ++ (if v.flags.hasPre ∧ v.prerelease ≠ [] then '-' :: v.prerelease else [])

/-- `Full` from `semver.go`: like `Canonical` but with build metadata and
with the prefix rule — `preserve` forces a lowercase `'v'`, otherwise the
original first character is kept when the original had a marker, and no
prefix is emitted when it had none. -/
def Full (v : Semver) (preserve : Bool) : List Char :=
  if !v.valid then []
  else
    let pfx : List Char :=
      if preserve then ['v']
      else
        match v.original with
        | [] => []
        | c :: _ => if HasV v then [c] else []
    pfx ++ writeInt v.major ++ '.' :: writeInt v.minor ++ '.' :: writeInt v.patch
      ++ (if v.flags.hasPre ∧ v.prerelease ≠ [] then '-' :: v.prerelease else [])
      ++ (if v.flags.hasBuild ∧ v.build ≠ [] then '+' :: v.build else [])

/-- `BumpPatch` from `bump.go`: patch + 1, prerelease and build cleared,
core flags promoted, original recomputed with `Full(false)`. -/
def BumpPatch (v : Semver) : Semver × Bool :=
  if !v.valid then (invalidSemver v.original, false)
  else
    let nv1 : Semver :=
      { v with
        patch := v.patch + 1,
        prerelease := [],
        build := [],
        flags := { v.flags with
                   hasMajor := true, hasMinor := true, hasPatch := true,
                   hasPre := false, hasBuild := false } }
    ({ nv1 with original := Full nv1 false }, true)

/-- `BumpMinor` from `bump.go`. -/
def BumpMinor (v : Semver) : Semver × Bool :=
  if !v.valid then (invalidSemver v.original, false)
  else
    let nv1 : Semver :=
      { v with
        minor := v.minor + 1,
        patch := 0,
        prerelease := [],
        build := [],
        flags := { v.flags with
                   hasMajor := true, hasMinor := true, hasPatch := true,
                   hasPre := false, hasBuild := false } }
    ({ nv1 with original := Full nv1 false }, true)

/-- `BumpMajor` from `bump.go`. -/
def BumpMajor (v : Semver) : Semver × Bool :=
  if !v.valid then (invalidSemver v.original, false)
  else
    let nv1 : Semver :=
      { v with
        major := v.major + 1,
        minor := 0,
        patch := 0,
        prerelease := [],
        build := [],
        flags := { v.flags with
                   hasMajor := true, hasMinor := true, hasPatch := true,
                   hasPre := false, hasBuild := false } }
    ({ nv1 with original := Full nv1 false }, true)

/-- `WithPre` from `bump.go`: an invalid receiver fails immediately; a
non-empty argument is validated with the package parser (`"-" + pre` must
be consumed completely); on success shorthand minor/patch are promoted to
explicit zeros, the prerelease and its flag are set (the flag cleared for
an empty argument) and the original text is recomputed. -/
def WithPre (v : Semver) (pre : List Char) : Semver × Bool :=
  if !v.valid then (invalidSemver v.original, false)
  else
    let ok : Bool :=
      if pre.isEmpty then true
      else
        match parsePrerelease pre with
        | some (_, rest) => rest.isEmpty
        | none => false
    if !ok then (invalidSemver v.original, false)
    else
      let nv1 : Semver :=
        { v with
          minor := if v.flags.hasMinor then v.minor else 0,
          patch := if v.flags.hasPatch then v.patch else 0,
          prerelease := pre,
          flags := { v.flags with
                     hasMinor := true, hasPatch := true,
                     hasPre := !pre.isEmpty } }
      ({ nv1 with original := Full nv1 false }, true)

/-- `WithBuild` from `bump.go`: symmetric to `WithPre` with the build
validator. -/
def WithBuild (v : Semver) (bld : List Char) : Semver × Bool :=
  if !v.valid then (invalidSemver v.original, false)
  else
    let ok : Bool :=
      if bld.isEmpty then true
      else
        match parseBuild bld with
        | some _ => true
        | none => false
    if !ok then (invalidSemver v.original, false)
    else
      let nv1 : Semver :=
        { v with
          minor := if v.flags.hasMinor then v.minor else 0,
          patch := if v.flags.hasPatch then v.patch else 0,
          build := bld,
          flags := { v.flags with
                     hasMinor := true, hasPatch := true,
                     hasBuild := !bld.isEmpty } }
      ({ nv1 with original := Full nv1 false }, true)

/-- `StripPre` from `bump.go`. -/
def StripPre (v : Semver) : Semver × Bool :=
  if !v.valid then (invalidSemver v.original, false)
  else
    let nv1 : Semver :=
      { v with prerelease := [], flags := { v.flags with hasPre := false } }
    ({ nv1 with original := Full nv1 false }, true)

/-- `StripBuild` from `bump.go`. -/
def StripBuild (v : Semver) : Semver × Bool :=
  if !v.valid then (invalidSemver v.original, false)
  else
    let nv1 : Semver :=
      { v with build := [], flags := { v.flags with hasBuild := false } }
    ({ nv1 with original := Full nv1 false }, true)

/-- The byte-wise carry loop of `NextPrerelease`, on the reversed digit
string: a `'9'` becomes `'0'` and the carry propagates, any other byte is
incremented and the carry stops; a carry out of the top prepends `'1'`. -/
def incDigitsRev : List Char → List Char
  | [] => ['1']
  | c :: rest => if c = '9' then '0' :: incDigitsRev rest else Char.ofNat (c.toNat + 1) :: rest

/-- Arbitrary-precision decimal increment of a digit string, exactly the
in-place loop of `NextPrerelease` (`bump.go` lines 186-199). -/
def incDecimal (l : List Char) : List Char :=
  (incDigitsRev l.reverse).reverse

/-- `NextPrerelease` from `bump.go`: an invalid receiver fails; an empty
prerelease becomes `(base or "rc") + ".1"` (this early-return branch does
not recompute the original text); otherwise the last dot-separated
identifier is incremented when it is all digits, and a new identifier
`"1"` is appended when it is not, after which the original text is
recomputed. -/
def NextPrerelease (v : Semver) (base : List Char) : Semver × Bool :=
  if !v.valid then (invalidSemver v.original, false)
  else
    let cur := v.prerelease
    if cur.isEmpty then
      let b := if base.isEmpty then ['r', 'c'] else base
      ({ v with
         prerelease := b ++ ['.', '1'],
         flags := { v.flags with hasPre := true } }, true)
    else
      let parts := splitOnDot cur
      let lastPart := parts.getLastD []
      let newParts :=
        if isNum lastPart then parts.dropLast ++ [incDecimal lastPart]
        else parts ++ [['1']]
      let nv1 : Semver :=
        { v with
          prerelease := joinDot newParts,
          flags := { v.flags with hasPre := true } }
      ({ nv1 with original := Full nv1 false }, true)

/-- The tie-break key of `List.Less` (`list.go`): the original text, or
the canonical rendering when the original is empty. -/
def tieStr (v : Semver) : List Char :=
  if v.original = [] then Canonical v else v.original

/-- `List.Less` from `list.go`: order by `Compare`, break ties by the
byte-wise order of the tie-break keys. -/
def lessSemver (a b : Semver) : Bool :=
  let c := Compare a b
  if c ≠ 0 then decide (c < 0) else lexLt (tieStr a) (tieStr b)

/-- The sorted-output relation of `List.Sort`: element `a` may precede
element `b` exactly when `Less(b, a)` is false, which is what `sort.Sort`
guarantees of every adjacent (and hence every ordered) pair. -/
def sortLE (a b : Semver) : Prop :=
  lessSemver b a = false

instance : DecidableRel sortLE :=
  fun a b => instDecidableEqBool (lessSemver b a) false

/-- `List.Sort` from `list.go` sorts with `sort.Sort`, whose contract is
to produce a permutation pairwise-ordered by `Less`; it is modelled here
by the deterministic insertion sort over that ordering. -/
def sortAscending (l : List Semver) : List Semver :=
  List.insertionSort sortLE l

example :
    Compare (Parse ((r"1.0.0-alpha").toList)) (Parse ((r"1.0.0-alpha.1").toList)) = -1 := by
  decide
example :
    Compare (Parse ((r"1.0.0-beta.2").toList)) (Parse ((r"1.0.0-beta.11").toList)) = -1 := by
  decide
example :
    Compare (Parse ((r"1.2.3+foo").toList)) (Parse ((r"1.2.3+bar").toList)) = 0 := by
  decide
example :
    Canonical (Parse ((r"1.2").toList)) = (r"v1.2.0").toList := by
  decide
example :
    Canonical (Parse ((r"v1.2.0-rc.1+build.5").toList)) = (r"v1.2.0-rc.1").toList := by
  decide
example :
    (NextPrerelease (Parse ((r"1.2.3-rc.9").toList)) ((r"rc").toList)).1.prerelease
      = (r"rc.10").toList := by
  decide
example :
    Canonical (NextPrerelease (Parse ((r"1.2.3-rc.9").toList)) ((r"rc").toList)).1
      = (r"v1.2.3-rc.10").toList := by
  decide
example :
    (NextPrerelease (Parse ((r"1.2.3-rc.1+build.5").toList)) ((r"rc").toList)).1.build
      = (r"build.5").toList := by
  decide
example :
    (WithPre (Parse ((r"1").toList)) ((r"01").toList)).2 = false := by
  decide
example :
    Canonical (WithPre (Parse ((r"1").toList)) ((r"alpha.1").toList)).1
      = (r"v1.0.0-alpha.1").toList := by
  decide
example :
    sortAscending [Parse ((r"b").toList), Parse ((r"1.2.3").toList), Parse ((r"a").toList)]
      = [Parse ((r"a").toList), Parse ((r"b").toList), Parse ((r"1.2.3").toList)] := by
  decide

/-! ### Basic facts about digit characters -/

theorem isDigit_iff (c : Char) : isDigit c = true ↔ 48 ≤ c.toNat ∧ c.toNat ≤ 57 := by
  simp only [isDigit, Bool.and_eq_true, decide_eq_true_eq]
  constructor
  · exact fun h => ⟨h.1, h.2⟩
  · exact fun h => ⟨h.1, h.2⟩

theorem digitChar_isDigit : ∀ d, d < 10 → isDigit (digitChar d) = true := by decide

theorem digitChar_charVal : ∀ d, d < 10 → charVal (digitChar d) = d := by decide

theorem digitChar_ne_zero : ∀ d, d < 10 → 0 < d → digitChar d ≠ '0' := by decide

theorem charVal_lt_ten (c : Char) (h : isDigit c = true) : charVal c < 10 := by
  have := (isDigit_iff c).1 h
  unfold charVal
  omega

theorem digit_toNat (c : Char) (h : isDigit c = true) : c.toNat = 48 + charVal c := by
  have := (isDigit_iff c).1 h
  unfold charVal
  omega

/-! ### Facts about `digitsVal` -/

theorem digitsVal_nil : digitsVal [] = 0 := rfl

theorem digitsVal_go (a : Nat) (l : List Char) :
    List.foldl (fun a c => a * 10 + charVal c) a l =
      a * 10 ^ l.length + digitsVal l := by
  induction l generalizing a with
  | nil => simp [digitsVal]
  | cons c t ih =>
    simp only [List.foldl_cons, List.length_cons, digitsVal]
    rw [ih (a * 10 + charVal c), ih (0 * 10 + charVal c)]
    ring

theorem digitsVal_cons (c : Char) (l : List Char) :
    digitsVal (c :: l) = charVal c * 10 ^ l.length + digitsVal l := by
  calc digitsVal (c :: l)
      = List.foldl (fun a c => a * 10 + charVal c) (0 * 10 + charVal c) l := rfl
    _ = (0 * 10 + charVal c) * 10 ^ l.length + digitsVal l := digitsVal_go _ l
    _ = charVal c * 10 ^ l.length + digitsVal l := by ring

theorem digitsVal_append_single (l : List Char) (c : Char) :
    digitsVal (l ++ [c]) = digitsVal l * 10 + charVal c := by
  unfold digitsVal
  rw [List.foldl_append]
  rfl

/-! ### `takeWhile` and `dropWhile` over a decomposed list -/

theorem takeWhile_append_of_all {p : Char → Bool} (l r : List Char)
    (hl : ∀ c ∈ l, p c = true) (hr : ∀ c, r.head? = some c → p c = false) :
    (l ++ r).takeWhile p = l := by
  induction l with
  | nil =>
    cases r with
    | nil => rfl
    | cons c t =>
      simp [List.takeWhile_cons, hr c rfl]
  | cons c t ih =>
    simp only [List.cons_append, List.takeWhile_cons, hl c (List.mem_cons_self c t)]
    simp [ih (fun x hx => hl x (List.mem_cons_of_mem c hx))]

theorem dropWhile_append_of_all {p : Char → Bool} (l r : List Char)
    (hl : ∀ c ∈ l, p c = true) (hr : ∀ c, r.head? = some c → p c = false) :
    (l ++ r).dropWhile p = r := by
  induction l with
  | nil =>
    cases r with
    | nil => rfl
    | cons c t =>
      simp [List.dropWhile_cons, hr c rfl]
  | cons c t ih =>
    simp only [List.cons_append, List.dropWhile_cons, hl c (List.mem_cons_self c t)]
    simpa using ih (fun x hx => hl x (List.mem_cons_of_mem c hx))

/-! ### Facts about `splitOnDot` and `joinDot` -/

theorem splitOnDot_ne_nil (l : List Char) : splitOnDot l ≠ [] := by
  cases l with
  | nil => simp [splitOnDot]
  | cons c rest =>
    unfold splitOnDot
    by_cases h : c = '.'
    · simp [h]
    · simp only [if_neg h]
      cases splitOnDot rest <;> simp

theorem joinDot_splitOnDot (l : List Char) : joinDot (splitOnDot l) = l := by
  induction l with
  | nil => rfl
  | cons c rest ih =>
    unfold splitOnDot
    by_cases h : c = '.'
    · subst h
      simp only [if_pos rfl]
      have hne := splitOnDot_ne_nil rest
      cases hsp : splitOnDot rest with
      | nil => exact absurd hsp hne
      | cons p ps =>
        show joinDot ([] :: p :: ps) = '.' :: rest
        unfold joinDot
        rw [hsp] at ih
        simpa using ih
    · simp only [if_neg h]
      cases hsp : splitOnDot rest with
      | nil => exact absurd hsp (splitOnDot_ne_nil rest)
      | cons p ps =>
        rw [hsp] at ih
        cases ps with
        | nil =>
          show joinDot [c :: p] = c :: rest
          unfold joinDot
          simp only [joinDot] at ih
          rw [ih]
        | cons q qs =>
          show joinDot ((c :: p) :: q :: qs) = c :: rest
          show (c :: p) ++ '.' :: joinDot (q :: qs) = c :: rest
          have : p ++ '.' :: joinDot (q :: qs) = rest := ih
          simp only [List.cons_append]
          rw [this]

theorem splitOnDot_injective (a b : List Char) (h : splitOnDot a = splitOnDot b) : a = b := by
  have ha := joinDot_splitOnDot a
  have hb := joinDot_splitOnDot b
  rw [← ha, ← hb, h]

theorem joinDot_append_single (ps : List (List Char)) (x : List Char) (h : ps ≠ []) :
    joinDot (ps ++ [x]) = joinDot ps ++ '.' :: x := by
  induction ps with
  | nil => exact absurd rfl h
  | cons p ps ih =>
    cases ps with
    | nil =>
      show joinDot [p, x] = joinDot [p] ++ '.' :: x
      unfold joinDot
      rfl
    | cons q qs =>
      show joinDot (p :: ((q :: qs) ++ [x])) = (p ++ '.' :: joinDot (q :: qs)) ++ '.' :: x
      have hne : q :: qs ≠ [] := by simp
      have := ih hne
      show p ++ '.' :: joinDot ((q :: qs) ++ [x]) = (p ++ '.' :: joinDot (q :: qs)) ++ '.' :: x
      rw [this]
      simp

/-! ### Facts about decimal digit emission (`natDigitsAux`, `writeInt`) -/

theorem natDigitsAux_zero (f : Nat) : natDigitsAux f 0 = [] := by
  cases f <;> rfl

theorem natDigitsAux_ne_nil (f n : Nat) (h0 : 0 < n) (h : n ≤ f) :
    natDigitsAux f n ≠ [] := by
  cases f with
  | zero => omega
  | succ f =>
    unfold natDigitsAux
    rw [if_neg (by omega)]
    simp

theorem natDigitsAux_all (f : Nat) : ∀ n, n ≤ f → (natDigitsAux f n).all isDigit = true := by
  induction f with
  | zero => intro n h; interval_cases n; rfl
  | succ f ih =>
    intro n h
    unfold natDigitsAux
    by_cases h0 : n = 0
    · rw [if_pos h0]; rfl
    · rw [if_neg h0]
      rw [List.all_append]
      refine Bool.and_eq_true_iff.2 ⟨?_, ?_⟩
      · exact ih (n / 10) (by omega)
      · simp [digitChar_isDigit (n % 10) (Nat.mod_lt n (by omega))]

theorem natDigitsAux_val (f : Nat) : ∀ n, n ≤ f → digitsVal (natDigitsAux f n) = n := by
  induction f with
  | zero => intro n h; interval_cases n; rfl
  | succ f ih =>
    intro n h
    unfold natDigitsAux
    by_cases h0 : n = 0
    · rw [if_pos h0]; simp [digitsVal, h0]
    · rw [if_neg h0]
      rw [digitsVal_append_single, ih (n / 10) (by omega),
        digitChar_charVal (n % 10) (Nat.mod_lt n (by omega))]
      omega

theorem natDigitsAux_head (f : Nat) :
    ∀ n, 0 < n → n ≤ f → (natDigitsAux f n).head? ≠ some '0' := by
  induction f with
  | zero => intro n h0 h; omega
  | succ f ih =>
    intro n h0 h
    unfold natDigitsAux
    rw [if_neg (by omega)]
    by_cases hsmall : n < 10
    · rw [Nat.div_eq_of_lt hsmall, natDigitsAux_zero]
      simp only [List.nil_append, List.head?_cons]
      have : n % 10 = n := Nat.mod_eq_of_lt hsmall
      rw [this]
      intro hc
      exact digitChar_ne_zero n hsmall h0 (Option.some.injEq _ _ ▸ hc)
    · have hpos : 0 < n / 10 := Nat.div_pos (by omega) (by omega)
      have hle : n / 10 ≤ f := by
        have := Nat.div_lt_self h0 (show 1 < 10 by omega)
        omega
      rw [List.head?_append]
      cases hh : (natDigitsAux f (n / 10)).head? with
      | none =>
        exact absurd (List.head?_eq_none_iff.1 hh) (natDigitsAux_ne_nil f (n / 10) hpos hle)
      | some c =>
        have := ih (n / 10) hpos hle
        rw [hh] at this
        simpa using this

theorem natDigitsAux_length (f : Nat) :
    ∀ n k, n ≤ f → n < 10 ^ k → (natDigitsAux f n).length ≤ k := by
  induction f with
  | zero =>
    intro n k h hk
    interval_cases n
    simp [natDigitsAux_zero]
  | succ f ih =>
    intro n k h hk
    unfold natDigitsAux
    by_cases h0 : n = 0
    · rw [if_pos h0]; simp
    · rw [if_neg h0]
      have hkpos : 0 < k := by
        by_contra hc
        have : k = 0 := by omega
        subst this
        simp at hk
        omega
      rw [List.length_append]
      have hdiv : n / 10 < 10 ^ (k - 1) := by
        have h10 : (0:Nat) < 10 := by omega
        rw [Nat.div_lt_iff_lt_mul h10]
        have : 10 ^ (k - 1) * 10 = 10 ^ k := by
          rw [← pow_succ]
          congr 1
          omega
        omega
      have := ih (n / 10) (k - 1) (by
        have := Nat.div_lt_self (by omega : 0 < n) (show 1 < 10 by omega)
        omega) hdiv
      simp only [List.length_cons, List.length_nil]
      omega

theorem writeIntNat_all (n : Nat) : (writeIntNat n).all isDigit = true := by
  unfold writeIntNat
  split
  · rfl
  · exact natDigitsAux_all n n le_rfl

theorem writeIntNat_val (n : Nat) : digitsVal (writeIntNat n) = n := by
  unfold writeIntNat
  split
  · subst ‹n = 0›; rfl
  · exact natDigitsAux_val n n le_rfl

theorem writeIntNat_ne_nil (n : Nat) : writeIntNat n ≠ [] := by
  unfold writeIntNat
  split
  · simp
  · exact natDigitsAux_ne_nil n n (by omega) le_rfl

theorem writeIntNat_head_ne_zero (n : Nat) (h : 0 < n) :
    (writeIntNat n).head? ≠ some '0' := by
  unfold writeIntNat
  rw [if_neg (by omega)]
  exact natDigitsAux_head n n h le_rfl

theorem writeIntNat_length (n k : Nat) (hk : 0 < k) (h : n < 10 ^ k) :
    (writeIntNat n).length ≤ k := by
  unfold writeIntNat
  split
  · simpa using hk
  · exact natDigitsAux_length n n k le_rfl h

theorem maxIntNat_lt_pow19 : maxIntNat < 10 ^ 19 := by decide

theorem parseInt_render (m : Int) (h0 : 0 ≤ m) (h1 : m ≤ (maxIntNat : Int))
    (rest : List Char) (hrest : ∀ c, rest.head? = some c → isDigit c = false) :
    parseInt (writeInt m ++ rest) = some (m, rest) := by
  have hw : writeInt m = writeIntNat m.toNat := by
    unfold writeInt
    rw [if_neg (not_lt.2 h0)]
  have hn : m.toNat ≤ maxIntNat := by omega
  have hmem : ∀ c ∈ writeIntNat m.toNat, isDigit c = true :=
    fun c hc => List.all_eq_true.1 (writeIntNat_all m.toNat) c hc
  have htake : (writeIntNat m.toNat ++ rest).takeWhile isDigit = writeIntNat m.toNat :=
    takeWhile_append_of_all _ _ hmem hrest
  have hdrop : (writeIntNat m.toNat ++ rest).dropWhile isDigit = rest :=
    dropWhile_append_of_all _ _ hmem hrest
  have hlen : (writeIntNat m.toNat).length ≤ 19 :=
    writeIntNat_length m.toNat 19 (by omega)
      (lt_of_le_of_lt hn maxIntNat_lt_pow19)
  have hne := writeIntNat_ne_nil m.toNat
  rw [hw]
  unfold parseInt
  simp only [htake, hdrop]
  rw [if_neg (by simpa using hne)]
  rw [if_neg (by
    by_cases hz : m.toNat = 0
    · rw [hz]
      decide
    · have hh := writeIntNat_head_ne_zero m.toNat (by omega)
      cases hl : writeIntNat m.toNat with
      | nil => exact absurd hl hne
      | cons c t =>
        rw [hl] at hh
        simp only [List.head?_cons, ne_eq, Option.some.injEq] at hh
        simp only [List.headD_cons, Bool.and_eq_true, beq_iff_eq]
        intro hcontra
        exact hh hcontra.1)]
  rw [if_neg (by omega)]
  rw [writeIntNat_val]
  have : min m.toNat maxIntNat = m.toNat := by omega
  rw [this]
  congr 1
  rw [Int.toNat_of_nonneg h0]

/-- A parse failure produces exactly the invalid value carrying the input. -/
theorem Parse_of_parseParts_none (s : List Char) (h : (Parse s).valid = false) :
    Parse s = invalidSemver s := by
  unfold Parse at *
  cases hp : parseParts s with
  | none => rfl
  | some p =>
    rw [hp] at h
    simp at h

theorem comparePrerelease_self (a : List Char) : comparePrerelease a a = 0 := by
  unfold comparePrerelease
  rw [if_pos rfl]

/-- C1: the spec demands that a numeric core component whose digit run
exceeds the host signed-integer range make the whole input invalid, and the
package README states the same; the code however ignores the range error of
`strconv.Atoi`, so the 19-digit input `9223372036854775808` (exactly 2^63)
parses as a valid version with its major clamped to 2^63 - 1, while a
20-digit run is rejected by the length guard.  This theorem evaluates the
code at the failing input. -/
theorem c1_overflow_clamped_not_rejected :
    (Parse ((r"9223372036854775808").toList)).valid = true
      ∧ (Parse ((r"9223372036854775808").toList)).major = ((9223372036854775807 : Int))
      ∧ (Parse ((r"92233720368547758080").toList)).valid = false := by
  decide

/-- C3: two valid versions agreeing on major, minor, patch, prerelease
text and prerelease presence compare equal whatever their build metadata,
and replacing the build field and build flag of both arguments never
changes the result of `Compare`. -/
theorem c3_build_never_affects_compare :
    (∀ v w : Semver, v.valid = true → w.valid = true → v.major = w.major →
      v.minor = w.minor → v.patch = w.patch → v.flags.hasPre = w.flags.hasPre →
      v.prerelease = w.prerelease → Compare v w = 0)
    ∧ (∀ (v w : Semver) (b b' : List Char) (hb hb' : Bool),
        Compare { v with build := b, flags := { v.flags with hasBuild := hb } }
          { w with build := b', flags := { w.flags with hasBuild := hb' } }
          = Compare v w) := by
  constructor
  · intro v w hv hw h1 h2 h3 h4 h5
    unfold Compare
    rw [hv, hw, h1, h2, h3, h4, h5]
    cases hcase : w.flags.hasPre <;> simp [comparePrerelease_self]
  · intro v w b b' hb hb'
    rfl

/-- C3 witness: two parses differing only in build metadata compare
equal. -/
theorem c3_witness :
    Compare (Parse ((r"1.2.3+foo").toList)) (Parse ((r"1.2.3+bar").toList)) = 0 :=
  c3_build_never_affects_compare.1 _ _ (by decide) (by decide) (by decide)
    (by decide) (by decide) (by decide) (by decide)

/-- C6 counterexample: on the valid receiver parsed from
`1.2.3-rc.1+build.5`, `NextPrerelease` succeeds but returns a value whose
build field is still `build.5` and whose build flag is still set — the
claim that the operation discards build metadata (empty build field,
cleared flag) is false on the code. -/
theorem c6_counterexample :
    ((NextPrerelease (Parse ((r"1.2.3-rc.1+build.5").toList)) ((r"rc").toList)).2 = true)
      ∧ ((NextPrerelease (Parse ((r"1.2.3-rc.1+build.5").toList)) ((r"rc").toList)).1.build
          = (r"build.5").toList)
      ∧ ((NextPrerelease (Parse ((r"1.2.3-rc.1+build.5").toList))
          ((r"rc").toList)).1.flags.hasBuild = true) := by
  decide

/-- C6 (amended): `NextPrerelease` on a valid receiver succeeds and
retains the receiver's build metadata unchanged — both the build field and
the build-present flag are carried over, not discarded; only the canonical
rendering strips build metadata. -/
theorem c6_nextprerelease_retains_build (v : Semver) (base : List Char)
    (h : v.valid = true) :
    (NextPrerelease v base).2 = true
      ∧ (NextPrerelease v base).1.build = v.build
      ∧ (NextPrerelease v base).1.flags.hasBuild = v.flags.hasBuild := by
  by_cases hc : v.prerelease.isEmpty <;> simp [NextPrerelease, h, hc]

/-- C6 witness: build metadata retention observed on a concrete parse. -/
theorem c6_witness :
    (NextPrerelease (Parse ((r"1.2.3+m").toList)) []).1.build
      = (Parse ((r"1.2.3+m").toList)).build :=
  (c6_nextprerelease_retains_build _ _ (by decide)).2.1

/-- C7: `WithPre` rejects, on any valid receiver, any prerelease text one
of whose dot-separated identifiers is a leading-zero numeric identifier,
returning the unmutated failure pair; and on an invalid receiver every
mutator of the package fails immediately with the same failure pair. -/
theorem c7_withpre_validation_and_invalid_receiver :
    (∀ (v : Semver) (pre : List Char), v.valid = true →
      (∃ p ∈ splitOnDot pre, isBadNum p = true) →
      WithPre v pre = (invalidSemver v.original, false))
    ∧ (∀ (v : Semver) (pre : List Char), v.valid = false →
        WithPre v pre = (invalidSemver v.original, false))
    ∧ (∀ (v : Semver) (bld : List Char), v.valid = false →
        WithBuild v bld = (invalidSemver v.original, false))
    ∧ (∀ (v : Semver) (base : List Char), v.valid = false →
        NextPrerelease v base = (invalidSemver v.original, false))
    ∧ (∀ v : Semver, v.valid = false →
        BumpPatch v = (invalidSemver v.original, false)
          ∧ BumpMinor v = (invalidSemver v.original, false)
          ∧ BumpMajor v = (invalidSemver v.original, false)
          ∧ StripPre v = (invalidSemver v.original, false)
          ∧ StripBuild v = (invalidSemver v.original, false)) := by
  refine ⟨?_, ?_, ?_, ?_, ?_⟩
  · intro v pre hv hbad
    obtain ⟨p, hp, hbadp⟩ := hbad
    have hpre_ne : pre ≠ [] := by
      rintro rfl
      simp [splitOnDot] at hp
      subst hp
      simp [isBadNum] at hbadp
    have hne : pre.isEmpty = false := by
      cases pre with
      | nil => exact absurd rfl hpre_ne
      | cons c t => rfl
    have hok : (match parsePrerelease pre with
        | some (_, rest) => rest.isEmpty
        | none => false) = false := by
      by_cases hplus : ∀ c ∈ pre, (c != '+') = true
      · have htake : pre.takeWhile (fun c => c != '+') = pre :=
          List.takeWhile_eq_self_iff.2 hplus
        have hfail : ((splitOnDot pre).all fun q => !q.isEmpty && !isBadNum q) = false :=
          List.all_eq_false.2 ⟨p, hp, by simp [hbadp]⟩
        simp [parsePrerelease, htake, hfail]
      · push_neg at hplus
        obtain ⟨c, hc, hcne⟩ := hplus
        have hceq : c = '+' := by
          by_contra h
          exact hcne (by simp [h])
        subst hceq
        have hdrop : pre.dropWhile (fun c => c != '+') ≠ [] := by
          intro hnil
          have := List.dropWhile_eq_nil_iff.1 hnil _ hc
          simp at this
        simp only [parsePrerelease]
        split
        · rename_i fst rest heq
          split at heq
          · simp only [Option.some.injEq, Prod.mk.injEq] at heq
            obtain ⟨h1, h2⟩ := heq
            subst h2
            cases hd : pre.dropWhile (fun c => c != '+') with
            | nil => exact absurd hd hdrop
            | cons x xs => simp [hd]
          · exact absurd heq (by simp)
        · rfl
    simp [WithPre, hv, hne, hok]
  · intro v pre hv
    simp [WithPre, hv]
  · intro v bld hv
    simp [WithBuild, hv]
  · intro v base hv
    simp [NextPrerelease, hv]
  · intro v hv
    refine ⟨?_, ?_, ?_, ?_, ?_⟩ <;>
      simp [BumpPatch, BumpMinor, BumpMajor, StripPre, StripBuild, hv]

/-- C7 witness: `WithPre` with the leading-zero numeric identifier `01`
fails on the valid receiver parsed from `1.2.3`. -/
theorem c7_witness :
    WithPre (Parse ((r"1.2.3").toList)) ((r"01").toList)
      = (invalidSemver (Parse ((r"1.2.3").toList)).original, false) :=
  c7_withpre_validation_and_invalid_receiver.1 _ _ (by decide) (by decide)

/-- C10: every presence accessor except the marker accessor is false on
any invalid version (they all conjoin with validity); the marker accessor
falls back to the first character of the original text on a parse failure,
so the invalid parse of `v1-pre` still reports the marker as present. -/
theorem c10_invalid_accessors :
    (∀ v : Semver, v.valid = false →
      HasMajor v = false ∧ HasMinor v = false ∧ HasPatch v = false ∧
        HasPre v = false ∧ HasBuild v = false ∧ IsRelease v = false)
    ∧ (∀ s : List Char, (Parse s).valid = false →
        HasV (Parse s) = (match s with
          | [] => false
          | c :: _ => c == 'v' || c == 'V'))
    ∧ ((Parse ((r"v1-pre").toList)).valid = false
        ∧ HasV (Parse ((r"v1-pre").toList)) = true) := by
  refine ⟨?_, ?_, by decide⟩
  · intro v hv
    simp [HasMajor, HasMinor, HasPatch, HasPre, HasBuild, IsRelease, hv]
  · intro s hs
    rw [Parse_of_parseParts_none s hs]
    cases s <;> simp [HasV, invalidSemver, noFlags]

/-- C10 witness: the accessors evaluated on the concrete invalid parses of
`bad` and `v1-pre`. -/
theorem c10_witness :
    HasPre (Parse ((r"bad").toList)) = false
      ∧ HasV (Parse ((r"v1-pre").toList))
          = (match (r"v1-pre").toList with
            | [] => false
            | c :: _ => c == 'v' || c == 'V') :=
  ⟨(c10_invalid_accessors.1 _ (by decide)).2.2.2.1,
    c10_invalid_accessors.2.1 _ (by decide)⟩

/-- Least-significant-first value of a digit list; proof-side view of
`digitsVal` after reversal. -/
def valLSB : List Char → Nat
  | [] => 0
  | c :: t => charVal c + 10 * valLSB t

theorem digitsVal_reverse (rl : List Char) : digitsVal rl.reverse = valLSB rl := by
  induction rl with
  | nil => rfl
  | cons c t ih =>
    simp only [List.reverse_cons]
    rw [digitsVal_append_single, ih]
    show valLSB t * 10 + charVal c = charVal c + 10 * valLSB t
    ring

theorem incDigitsRev_spec (rl : List Char) (h : rl.all isDigit = true) :
    valLSB (incDigitsRev rl) = valLSB rl + 1 ∧ (incDigitsRev rl).all isDigit = true := by
  induction rl with
  | nil => constructor <;> decide
  | cons c t ih =>
    simp only [List.all_cons, Bool.and_eq_true] at h
    obtain ⟨hc, ht⟩ := h
    obtain ⟨ihv, iha⟩ := ih ht
    by_cases h9 : c = '9'
    · subst h9
      have e : incDigitsRev ('9' :: t) = '0' :: incDigitsRev t := by
        show (if ('9' : Char) = '9' then '0' :: incDigitsRev t
          else Char.ofNat ('9'.toNat + 1) :: t) = '0' :: incDigitsRev t
        rw [if_pos rfl]
      constructor
      · rw [e]
        show charVal '0' + 10 * valLSB (incDigitsRev t) = valLSB ('9' :: t) + 1
        rw [ihv]
        show charVal '0' + 10 * (valLSB t + 1) = (charVal '9' + 10 * valLSB t) + 1
        have h0 : charVal '0' = 0 := rfl
        have h9v : charVal '9' = 9 := rfl
        rw [h0, h9v]
        ring
      · rw [e]
        simp only [List.all_cons, iha]
        decide
    · have hcn := (isDigit_iff c).1 hc
      have hlt : c < '9' := by
        rcases lt_trichotomy c '9' with hx | hx | hx
        · exact hx
        · exact absurd hx h9
        · have h57 : (57 : Nat) < c.toNat := hx
          omega
      have hle56 : c.toNat ≤ 56 := by
        have : c.toNat < 57 := hlt
        omega
      have heq : Char.ofNat (c.toNat + 1) = digitChar (charVal c + 1) := by
        unfold digitChar
        congr 1
        unfold charVal
        omega
      have hlt10 : charVal c + 1 < 10 := by
        unfold charVal
        omega
      have e : incDigitsRev (c :: t) = Char.ofNat (c.toNat + 1) :: t := by
        show (if c = '9' then '0' :: incDigitsRev t
          else Char.ofNat (c.toNat + 1) :: t) = Char.ofNat (c.toNat + 1) :: t
        rw [if_neg h9]
      constructor
      · rw [e]
        show charVal (Char.ofNat (c.toNat + 1)) + 10 * valLSB t = valLSB (c :: t) + 1
        rw [heq, digitChar_charVal (charVal c + 1) hlt10]
        show charVal c + 1 + 10 * valLSB t = (charVal c + 10 * valLSB t) + 1
        ring
      · rw [e]
        simp only [List.all_cons, heq, digitChar_isDigit (charVal c + 1) hlt10, ht]
        rfl

theorem incDecimal_spec (l : List Char) (h : l.all isDigit = true) :
    digitsVal (incDecimal l) = digitsVal l + 1 ∧ (incDecimal l).all isDigit = true := by
  unfold incDecimal
  have hrev : l.reverse.all isDigit = true := by simpa using h
  obtain ⟨hv, ha⟩ := incDigitsRev_spec l.reverse hrev
  refine ⟨?_, by simpa using ha⟩
  rw [digitsVal_reverse, hv]
  have : digitsVal l = valLSB l.reverse := by
    conv_lhs => rw [← List.reverse_reverse l]
    exact digitsVal_reverse l.reverse
  rw [this]

/-- C9: `NextPrerelease` on a valid receiver: with an empty current
prerelease it sets `(base or "rc") + ".1"`; with an all-digits last
identifier it replaces that identifier by its arbitrary-precision decimal
increment; with a non-numeric last identifier it appends a new identifier
`1`.  The increment adds exactly one to the decimal value of a digit
string of any length and yields a digit string again (never overflowing a
fixed width; an all-nines tail grows by a digit, as the `1.2.3-99`
рrerelease example shows), and `rc.9` steps to `rc.10`. -/
theorem c9_nextprerelease_behavior :
    (∀ (v : Semver) (base : List Char), v.valid = true → v.prerelease = [] →
      (NextPrerelease v base).2 = true
        ∧ (NextPrerelease v base).1.prerelease
            = (if base = [] then ('r' :: ['c']) else base) ++ '.' :: ['1'])
    ∧ (∀ (v : Semver) (base : List Char), v.valid = true → v.prerelease ≠ [] →
        isNum ((splitOnDot v.prerelease).getLastD []) = true →
        (NextPrerelease v base).2 = true
          ∧ (NextPrerelease v base).1.prerelease
              = joinDot ((splitOnDot v.prerelease).dropLast
                  ++ [incDecimal ((splitOnDot v.prerelease).getLastD [])]))
    ∧ (∀ (v : Semver) (base : List Char), v.valid = true → v.prerelease ≠ [] →
        isNum ((splitOnDot v.prerelease).getLastD []) = false →
        (NextPrerelease v base).2 = true
          ∧ (NextPrerelease v base).1.prerelease = v.prerelease ++ '.' :: ['1'])
    ∧ (∀ l : List Char, l.all isDigit = true →
        digitsVal (incDecimal l) = digitsVal l + 1
          ∧ (incDecimal l).all isDigit = true ∧ incDecimal l ≠ [])
    ∧ (Canonical (NextPrerelease (Parse ((r"1.2.3-rc.9").toList)) ((r"rc").toList)).1
        = (r"v1.2.3-rc.10").toList
      ∧ (NextPrerelease (Parse ((r"1.2.3-99").toList)) []).1.prerelease
          = (r"100").toList) := by
  refine ⟨?_, ?_, ?_, ?_, by decide⟩
  · intro v base hv hpre
    have hb : base = [] ∨ base ≠ [] := em _
    rcases hb with hb | hb
    · subst hb
      simp [NextPrerelease, hv, hpre]
    · have : base.isEmpty = false := by
        cases base with
        | nil => exact absurd rfl hb
        | cons c t => rfl
      simp [NextPrerelease, hv, hpre, this, hb]
  · intro v base hv hpre hnum
    have hemp : v.prerelease.isEmpty = false := by
      cases hp : v.prerelease with
      | nil => exact absurd hp hpre
      | cons c t => rfl
    simp only [List.getLastD_eq_getLast?] at hnum
    simp [NextPrerelease, hv, hemp, hnum]
  · intro v base hv hpre hnum
    have hemp : v.prerelease.isEmpty = false := by
      cases hp : v.prerelease with
      | nil => exact absurd hp hpre
      | cons c t => rfl
    simp only [List.getLastD_eq_getLast?] at hnum
    constructor
    · simp [NextPrerelease, hv, hemp]
    · simp [NextPrerelease, hv, hemp, hnum]
      rw [joinDot_append_single _ _ (splitOnDot_ne_nil v.prerelease),
        joinDot_splitOnDot]
  · intro l hl
    obtain ⟨hv, ha⟩ := incDecimal_spec l hl
    refine ⟨hv, ha, ?_⟩
    intro hnil
    rw [hnil] at hv
    simp [digitsVal] at hv

/-- C9 witness: the empty-prerelease branch instantiated on the parse of
`1.2.3` with base `rc`. -/
theorem c9_witness :
    (NextPrerelease (Parse ((r"1.2.3").toList)) ((r"rc").toList)).2 = true
      ∧ (NextPrerelease (Parse ((r"1.2.3").toList)) ((r"rc").toList)).1.prerelease
          = (if ((r"rc").toList : List Char) = [] then ('r' :: ['c'])
              else (r"rc").toList) ++ '.' :: ['1'] :=
  c9_nextprerelease_behavior.1 _ _ (by decide) (by decide)


theorem append_isEmpty_false (l rl : List Char) (h : l ≠ []) :
    (l ++ rl).isEmpty = false := by
  cases l with
  | nil => exact absurd rfl h
  | cons c t => rfl

theorem digit_not_marker (d : Char) (h : isDigit d = true) :
    (d == 'v' || d == 'V') = false := by
  have hb := (isDigit_iff d).1 h
  simp only [Bool.or_eq_false_iff, beq_eq_false_iff_ne, ne_eq]
  constructor
  · intro he
    subst he
    revert hb
    decide
  · intro he
    subst he
    revert hb
    decide

theorem parseInt_append_digits (majd rl : List Char) (hne : majd ≠ [])
    (hall : ∀ c ∈ majd, isDigit c = true)
    (hr : ∀ c, rl.head? = some c → isDigit c = false) :
    parseInt (majd ++ rl) = none ∨ ∃ val, parseInt (majd ++ rl) = some (val, rl) := by
  have htake := takeWhile_append_of_all majd rl hall hr
  have hdrop := dropWhile_append_of_all majd rl hall hr
  rcases h : parseInt (majd ++ rl) with _ | ⟨val, rest'⟩
  · exact Or.inl rfl
  · refine Or.inr ⟨val, ?_⟩
    unfold parseInt at h
    simp only [htake, hdrop] at h
    split at h
    · exact absurd h (by simp)
    · split at h
      · exact absurd h (by simp)
      · split at h
        · exact absurd h (by simp)
        · simp only [Option.some.injEq, Prod.mk.injEq] at h
          rw [← h.2]

/-- C4: a prerelease (`-`) or build (`+`) segment directly after a
shorthand core — major only, or major.minor only — makes the whole input
invalid, with or without the `v` marker and whatever follows the
separator; in particular `v1-pre` and `1.2+meta` parse as invalid. -/
theorem c4_shorthand_rejects_pre_build :
    (∀ (withV : Bool) (majd : List Char) (sep : Char) (rest : List Char),
      majd ≠ [] → majd.all isDigit = true → (sep = '-' ∨ sep = '+') →
      (Parse ((if withV then ['v'] else []) ++ majd ++ sep :: rest)).valid = false)
    ∧ (∀ (withV : Bool) (majd mnd : List Char) (sep : Char) (rest : List Char),
      majd ≠ [] → majd.all isDigit = true →
      mnd ≠ [] → mnd.all isDigit = true → (sep = '-' ∨ sep = '+') →
      (Parse ((if withV then ['v'] else [])
        ++ majd ++ '.' :: (mnd ++ sep :: rest))).valid = false)
    ∧ ((Parse ((r"v1-pre").toList)).valid = false
        ∧ (Parse ((r"1.2+meta").toList)).valid = false) := by
  have hsehead : ∀ (sep : Char), (sep = '-' ∨ sep = '+') → ∀ (rest : List Char),
      ∀ c, (sep :: rest).head? = some c → isDigit c = false := by
    intro sep hsep rest c hc
    simp only [List.head?_cons, Option.some.injEq] at hc
    subst hc
    rcases hsep with rfl | rfl <;> decide
  refine ⟨?_, ?_, by decide⟩
  · intro withV majd sep rest hne hall hsep
    have hallm := List.all_eq_true.1 hall
    have hpp : parseParts ((if withV then ['v'] else []) ++ majd ++ sep :: rest)
        = none := by
      cases withV with
      | true =>
        show parseParts ('v' :: (majd ++ sep :: rest)) = none
        simp only [parseParts]
        have hv : ('v' == 'v' || 'v' == 'V') = true := rfl
        simp only [hv, Bool.true_and, append_isEmpty_false majd (sep :: rest) hne,
          Bool.false_eq_true, if_false, if_true]
        rcases parseInt_append_digits majd (sep :: rest) hne hallm
            (hsehead sep hsep rest) with hpi | ⟨val, hpi⟩
        · rw [hpi]
        · rw [hpi]
          rcases hsep with rfl | rfl <;> rfl
      | false =>
        cases majd with
        | nil => exact absurd rfl hne
        | cons d ds =>
          show parseParts (d :: (ds ++ sep :: rest)) = none
          simp only [parseParts]
          rw [digit_not_marker d (hallm d (by simp))]
          simp only [Bool.false_and, Bool.false_eq_true, if_false]
          rw [← List.cons_append]
          rcases parseInt_append_digits (d :: ds) (sep :: rest) (by simp) hallm
              (hsehead sep hsep rest) with hpi | ⟨val, hpi⟩
          · rw [hpi]
          · rw [hpi]
            rcases hsep with rfl | rfl <;> rfl
    unfold Parse
    rw [hpp]
    rfl
  · intro withV majd mnd sep rest hne hall hne2 hall2 hsep
    have hallm := List.all_eq_true.1 hall
    have hallm2 := List.all_eq_true.1 hall2
    have hdothead : ∀ c, ('.' :: (mnd ++ sep :: rest)).head? = some c →
        isDigit c = false := by
      intro c hc
      simp only [List.head?_cons, Option.some.injEq] at hc
      subst hc
      decide
    have hminor : ∀ (hvb : Bool) (val : Int),
        (match parseInt (mnd ++ sep :: rest) with
          | none => none
          | some (mn, r3) =>
            match r3 with
            | '.' :: r4 =>
              match parseInt r4 with
              | none => none
              | some (pt, r5) => parseTail hvb val mn pt true true r5
            | _ => parseTail hvb val mn 0 true false r3) = (none : Option ParsedParts) := by
      intro hvb val
      rcases parseInt_append_digits mnd (sep :: rest) hne2 hallm2
          (hsehead sep hsep rest) with hpi | ⟨val2, hpi⟩
      · rw [hpi]
      · rw [hpi]
        rcases hsep with rfl | rfl <;> rfl
    have hpp : parseParts ((if withV then ['v'] else [])
        ++ majd ++ '.' :: (mnd ++ sep :: rest)) = none := by
      cases withV with
      | true =>
        show parseParts ('v' :: (majd ++ '.' :: (mnd ++ sep :: rest))) = none
        simp only [parseParts]
        have hv : ('v' == 'v' || 'v' == 'V') = true := rfl
        simp only [hv, Bool.true_and,
          append_isEmpty_false majd ('.' :: (mnd ++ sep :: rest)) hne,
          Bool.false_eq_true, if_false, if_true]
        rcases parseInt_append_digits majd ('.' :: (mnd ++ sep :: rest)) hne hallm
            hdothead with hpi | ⟨val, hpi⟩
        · rw [hpi]
        · rw [hpi]
          exact hminor true val
      | false =>
        cases majd with
        | nil => exact absurd rfl hne
        | cons d ds =>
          show parseParts (d :: (ds ++ '.' :: (mnd ++ sep :: rest))) = none
          simp only [parseParts]
          rw [digit_not_marker d (hallm d (by simp))]
          simp only [Bool.false_and, Bool.false_eq_true, if_false]
          rw [← List.cons_append]
          rcases parseInt_append_digits (d :: ds) ('.' :: (mnd ++ sep :: rest)) (by simp)
              hallm hdothead with hpi | ⟨val, hpi⟩
          · rw [hpi]
          · rw [hpi]
            exact hminor false val
    unfold Parse
    rw [hpp]
    rfl

/-- C4 witness: the general statement instantiated at `v1-pre` (marker,
major-only core, prerelease separator) and `1.2+meta` (no marker,
major.minor core, build separator). -/
theorem c4_witness :
    (Parse ((if true then ['v'] else []) ++ ['1'] ++ '-' :: ((r"pre").toList))).valid
        = false
      ∧ (Parse ((if false then ['v'] else [])
          ++ ['1'] ++ '.' :: (['2'] ++ '+' :: ((r"meta").toList)))).valid = false :=
  ⟨c4_shorthand_rejects_pre_build.1 true ['1'] '-' ((r"pre").toList) (by decide)
      (by decide) (Or.inl rfl),
    c4_shorthand_rejects_pre_build.2.1 false ['1'] ['2'] '+' ((r"meta").toList)
      (by decide) (by decide) (by decide) (by decide) (Or.inr rfl)⟩

theorem cmpPreLists_common (common : List (List Char)) (dx dy : List Char)
    (xs ys : List (List Char)) (h : dx ≠ dy) :
    cmpPreLists (common ++ dx :: xs) (common ++ dy :: ys) = identCmp dx dy := by
  induction common with
  | nil =>
    show (if dx = dy then cmpPreLists xs ys else identCmp dx dy) = identCmp dx dy
    rw [if_neg h]
  | cons c cs ih =>
    show (if c = c then cmpPreLists (cs ++ dx :: xs) (cs ++ dy :: ys)
      else identCmp c c) = identCmp dx dy
    rw [if_pos rfl, ih]

theorem cmpPreLists_exhaust (common : List (List Char)) (y : List Char)
    (ys : List (List Char)) :
    cmpPreLists common (common ++ y :: ys) = -1
      ∧ cmpPreLists (common ++ y :: ys) common = 1 := by
  induction common with
  | nil => exact ⟨rfl, rfl⟩
  | cons c cs ih =>
    refine ⟨?_, ?_⟩
    · show (if c = c then cmpPreLists cs (cs ++ y :: ys) else identCmp c c) = -1
      rw [if_pos rfl, ih.1]
    · show (if c = c then cmpPreLists (cs ++ y :: ys) cs else identCmp c c) = 1
      rw [if_pos rfl, ih.2]

/-- C2: the prerelease walk compares dot-separated identifiers pairwise
left to right; the first differing pair decides (a numeric identifier
loses to a non-numeric one, two numeric identifiers compare by length then
byte-wise, two non-numeric identifiers byte-wise), and when one side is a
strict prefix of the other the shorter side is lower; consequently the
canonical SemVer ordering chain holds under `Compare`. -/
theorem c2_prerelease_walk_and_chain :
    (∀ (common : List (List Char)) (dx dy : List Char) (xs ys : List (List Char)),
      dx ≠ dy →
      cmpPreLists (common ++ dx :: xs) (common ++ dy :: ys) = identCmp dx dy
        ∧ (isNum dx = true → isNum dy = false → identCmp dx dy = -1)
        ∧ (isNum dx = false → isNum dy = true → identCmp dx dy = 1)
        ∧ (isNum dx = true → isNum dy = true →
            (dx.length < dy.length → identCmp dx dy = -1)
              ∧ (dy.length < dx.length → identCmp dx dy = 1)
              ∧ (dx.length = dy.length →
                  identCmp dx dy = if lexLt dx dy then -1 else 1))
        ∧ (isNum dx = false → isNum dy = false →
            identCmp dx dy = if lexLt dx dy then -1 else 1))
    ∧ (∀ (common : List (List Char)) (y : List Char) (ys : List (List Char)),
        cmpPreLists common (common ++ y :: ys) = -1
          ∧ cmpPreLists (common ++ y :: ys) common = 1)
    ∧ (∀ a b : List Char, a ≠ [] → b ≠ [] → a ≠ b →
        comparePrerelease a b = cmpPreLists (splitOnDot a) (splitOnDot b))
    ∧ (Compare (Parse ((r"1.0.0-alpha").toList)) (Parse ((r"1.0.0-alpha.1").toList)) = -1
      ∧ Compare (Parse ((r"1.0.0-alpha.1").toList))
          (Parse ((r"1.0.0-alpha.beta").toList)) = -1
      ∧ Compare (Parse ((r"1.0.0-alpha.beta").toList))
          (Parse ((r"1.0.0-beta").toList)) = -1
      ∧ Compare (Parse ((r"1.0.0-beta").toList)) (Parse ((r"1.0.0-beta.2").toList)) = -1
      ∧ Compare (Parse ((r"1.0.0-beta.2").toList))
          (Parse ((r"1.0.0-beta.11").toList)) = -1
      ∧ Compare (Parse ((r"1.0.0-beta.11").toList))
          (Parse ((r"1.0.0-rc.1").toList)) = -1
      ∧ Compare (Parse ((r"1.0.0-rc.1").toList)) (Parse ((r"1.0.0").toList)) = -1) := by
  refine ⟨?_, cmpPreLists_exhaust, ?_, by decide⟩
  · intro common dx dy xs ys h
    refine ⟨cmpPreLists_common common dx dy xs ys h, ?_, ?_, ?_, ?_⟩
    · intro h1 h2
      unfold identCmp
      rw [if_neg h, if_pos (by rw [h1, h2]; decide), if_pos h1]
    · intro h1 h2
      unfold identCmp
      rw [if_neg h, if_pos (by rw [h1, h2]; decide), if_neg (by simp [h1])]
    · intro h1 h2
      refine ⟨?_, ?_, ?_⟩
      · intro hlen
        unfold identCmp
        rw [if_neg h, if_neg (by rw [h1, h2]; decide), if_pos ⟨h1, hlen⟩]
      · intro hlen
        unfold identCmp
        rw [if_neg h, if_neg (by rw [h1, h2]; decide),
          if_neg (by intro hc; omega), if_pos ⟨h1, hlen⟩]
      · intro hlen
        unfold identCmp
        rw [if_neg h, if_neg (by rw [h1, h2]; decide),
          if_neg (by intro hc; omega), if_neg (by intro hc; omega)]
    · intro h1 h2
      unfold identCmp
      rw [if_neg h, if_neg (by rw [h1, h2]; decide),
        if_neg (by intro hc; rw [h1] at hc; exact absurd hc.1 (by decide)),
        if_neg (by intro hc; rw [h1] at hc; exact absurd hc.1 (by decide))]
  · intro a b ha hb hab
    unfold comparePrerelease
    rw [if_neg hab, if_neg ha, if_neg hb]

/-- C2 witness: the first-differing-pair rule applied after the common
identifier `rc`: the numeric identifier `1` is lower than the
alphanumeric `1a`. -/
theorem c2_witness :
    cmpPreLists ([['r', 'c']] ++ ['1'] :: []) ([['r', 'c']] ++ ['1', 'a'] :: [])
      = identCmp ['1'] ['1', 'a'] :=
  (c2_prerelease_walk_and_chain.1 [['r', 'c']] ['1'] ['1', 'a'] [] [] (by decide)).1

/-- The two-part validity condition that `parsePrerelease` checks of a
prerelease run. -/
def validPreRun (pre : List Char) : Prop :=
  pre.all (fun c => isIdentChar c || c == '.') = true
    ∧ (splitOnDot pre).all (fun p => !p.isEmpty && !isBadNum p) = true

theorem parsePrerelease_sound (raw pre rest2 : List Char)
    (h : parsePrerelease raw = some (pre, rest2)) :
    validPreRun pre ∧ pre ≠ [] := by
  simp only [parsePrerelease] at h
  split at h
  · rename_i hcond
    simp only [Option.some.injEq, Prod.mk.injEq] at h
    obtain ⟨h1, h2⟩ := h
    subst h1
    rw [Bool.and_eq_true] at hcond
    refine ⟨⟨hcond.1, hcond.2⟩, ?_⟩
    intro hnil
    rw [hnil] at hcond
    simp [splitOnDot] at hcond
  · exact absurd h (by simp)

theorem parsePrerelease_complete (pre : List Char) (h : validPreRun pre) :
    parsePrerelease pre = some (pre, []) := by
  have hplus : ∀ c ∈ pre, (c != '+') = true := by
    intro c hc
    have hcm := List.all_eq_true.1 h.1 c hc
    simp only [bne_iff_ne, ne_eq]
    intro hceq
    subst hceq
    exact absurd hcm (by decide)
  have htake := List.takeWhile_eq_self_iff.2 hplus
  have hdrop : pre.dropWhile (fun c => c != '+') = [] :=
    List.dropWhile_eq_nil_iff.2 hplus
  unfold parsePrerelease
  simp only [htake, hdrop]
  rw [if_pos (by rw [Bool.and_eq_true]; exact ⟨h.1, h.2⟩)]

theorem parseInt_sound (raw : List Char) (m : Int) (rest : List Char)
    (h : parseInt raw = some (m, rest)) : 0 ≤ m ∧ m ≤ (maxIntNat : Int) := by
  simp only [parseInt] at h
  split at h
  · exact absurd h (by simp)
  · split at h
    · exact absurd h (by simp)
    · split at h
      · exact absurd h (by simp)
      · simp only [Option.some.injEq, Prod.mk.injEq] at h
        obtain ⟨h1, _⟩ := h
        rw [← h1]
        constructor
        · exact Int.natCast_nonneg _
        · exact_mod_cast min_le_right _ _

theorem parseTail_sound (hvb : Bool) (maj mn pt : Int) (hm hp : Bool)
    (rest : List Char) (parts : ParsedParts)
    (h : parseTail hvb maj mn pt hm hp rest = some parts) :
    parts.major = maj ∧ parts.minor = mn ∧ parts.patch = pt
      ∧ (parts.hasPre = true → validPreRun parts.pre ∧ parts.pre ≠ [])
      ∧ (parts.hasPre = false → parts.pre = []) := by
  unfold parseTail at h
  split at h
  · simp only [Option.some.injEq] at h
    subst h
    refine ⟨rfl, rfl, rfl, ?_, ?_⟩ <;> simp
  · split at h
    · exact absurd h (by simp)
    · split at h
      · exact absurd h (by simp)
      · rename_i pr heq
        split at h
        · simp only [Option.some.injEq] at h
          subst h
          rename_i hrest2
          obtain ⟨hvp, hne⟩ := parsePrerelease_sound _ _ _ heq
          exact ⟨rfl, rfl, rfl, fun _ => ⟨hvp, hne⟩, by simp⟩
        · split at h
          · exact absurd h (by simp)
          · simp only [Option.some.injEq] at h
            subst h
            obtain ⟨hvp, hne⟩ := parsePrerelease_sound _ _ _ heq
            exact ⟨rfl, rfl, rfl, fun _ => ⟨hvp, hne⟩, by simp⟩
        · exact absurd h (by simp)
  · split at h
    · exact absurd h (by simp)
    · split at h
      · exact absurd h (by simp)
      · simp only [Option.some.injEq] at h
        subst h
        refine ⟨rfl, rfl, rfl, ?_, ?_⟩ <;> simp
  · exact absurd h (by simp)

theorem parseParts_sound (s : List Char) (p : ParsedParts) (h : parseParts s = some p) :
    0 ≤ p.major ∧ p.major ≤ (maxIntNat : Int)
      ∧ 0 ≤ p.minor ∧ p.minor ≤ (maxIntNat : Int)
      ∧ 0 ≤ p.patch ∧ p.patch ≤ (maxIntNat : Int)
      ∧ (p.hasPre = true → validPreRun p.pre ∧ p.pre ≠ [])
      ∧ (p.hasPre = false → p.pre = []) := by
  simp only [parseParts] at h
  split at h
  · exact absurd h (by simp)
  · split at h
    · exact absurd h (by simp)
    · split at h
      · exact absurd h (by simp)
      · rename_i maj r1 hpi1
        have hmaj := parseInt_sound _ _ _ hpi1
        split at h
        · split at h
          · exact absurd h (by simp)
          · rename_i mn r3 hpi2
            have hmn := parseInt_sound _ _ _ hpi2
            split at h
            · split at h
              · exact absurd h (by simp)
              · rename_i pt r5 hpi3
                have hpt := parseInt_sound _ _ _ hpi3
                obtain ⟨e1, e2, e3, h4, h5⟩ := parseTail_sound _ _ _ _ _ _ _ _ h
                rw [e1, e2, e3]
                exact ⟨hmaj.1, hmaj.2, hmn.1, hmn.2, hpt.1, hpt.2, h4, h5⟩
            · obtain ⟨e1, e2, e3, h4, h5⟩ := parseTail_sound _ _ _ _ _ _ _ _ h
              rw [e1, e2, e3]
              exact ⟨hmaj.1, hmaj.2, hmn.1, hmn.2, le_refl 0,
                Int.natCast_nonneg _, h4, h5⟩
        · obtain ⟨e1, e2, e3, h4, h5⟩ := parseTail_sound _ _ _ _ _ _ _ _ h
          rw [e1, e2, e3]
          exact ⟨hmaj.1, hmaj.2, le_refl 0, Int.natCast_nonneg _, le_refl 0,
            Int.natCast_nonneg _, h4, h5⟩

theorem Parse_valid_sound (s : List Char) (h : (Parse s).valid = true) :
    0 ≤ (Parse s).major ∧ (Parse s).major ≤ (maxIntNat : Int)
      ∧ 0 ≤ (Parse s).minor ∧ (Parse s).minor ≤ (maxIntNat : Int)
      ∧ 0 ≤ (Parse s).patch ∧ (Parse s).patch ≤ (maxIntNat : Int)
      ∧ ((Parse s).flags.hasPre = true →
          validPreRun (Parse s).prerelease ∧ (Parse s).prerelease ≠ [])
      ∧ ((Parse s).flags.hasPre = false → (Parse s).prerelease = []) := by
  unfold Parse at h ⊢
  cases hp : parseParts s with
  | none =>
    rw [hp] at h
    simp [invalidSemver] at h
  | some p => simpa using parseParts_sound s p hp

theorem writeInt_ne_nil (m : Int) (h : 0 ≤ m) : writeInt m ≠ [] := by
  unfold writeInt
  rw [if_neg (not_lt.2 h)]
  exact writeIntNat_ne_nil m.toNat

theorem parseParts_render (maj mn pt : Int)
    (hmaj0 : 0 ≤ maj) (hmaj1 : maj ≤ (maxIntNat : Int))
    (hmn0 : 0 ≤ mn) (hmn1 : mn ≤ (maxIntNat : Int))
    (hpt0 : 0 ≤ pt) (hpt1 : pt ≤ (maxIntNat : Int))
    (pre : List Char) (hasPre : Bool)
    (hpre : hasPre = true → validPreRun pre ∧ pre ≠ []) :
    parseParts ('v' :: (writeInt maj ++ '.' :: (writeInt mn ++ '.' :: (writeInt pt
        ++ (if hasPre = true then '-' :: pre else [])))))
      = some ⟨true, maj, mn, pt, true, true, (if hasPre = true then pre else []),
          hasPre, [], false⟩ := by
  have hdot : ∀ (X : List Char) (c : Char), ('.' :: X).head? = some c →
      isDigit c = false := by
    intro X c hc
    simp only [List.head?_cons, Option.some.injEq] at hc
    subst hc
    decide
  have htailhead : ∀ c : Char,
      ((if hasPre = true then '-' :: pre else []) : List Char).head? = some c →
      isDigit c = false := by
    intro c hc
    cases hasPre with
    | false => simp at hc
    | true =>
      simp only [eq_self_iff_true, if_true, List.head?_cons, Option.some.injEq] at hc
      subst hc
      decide
  have step3 : (match parseInt (writeInt pt
        ++ (if hasPre = true then '-' :: pre else [])) with
      | none => none
      | some (ptv, r5) => parseTail true maj mn ptv true true r5)
      = some ⟨true, maj, mn, pt, true, true, (if hasPre = true then pre else []),
          hasPre, [], false⟩ := by
    rw [parseInt_render pt hpt0 hpt1 _ htailhead]
    cases hasPre with
    | false => rfl
    | true =>
      obtain ⟨hvp, hne⟩ := hpre rfl
      have hppre := parsePrerelease_complete pre hvp
      show parseTail true maj mn pt true true ('-' :: pre)
        = some ⟨true, maj, mn, pt, true, true, pre, true, [], false⟩
      calc parseTail true maj mn pt true true ('-' :: pre)
          = (match parsePrerelease pre with
              | none => none
              | some (pre', rest2) =>
                match rest2 with
                | [] => some ⟨true, maj, mn, pt, true, true, pre', true, [], false⟩
                | '+' :: rb =>
                  (match parseBuild rb with
                    | none => none
                    | some bld =>
                      some ⟨true, maj, mn, pt, true, true, pre', true, bld, true⟩)
                | _ => none) := rfl
        _ = some ⟨true, maj, mn, pt, true, true, pre, true, [], false⟩ := by
          rw [hppre]
  have step2 : (match parseInt (writeInt mn ++ '.' :: (writeInt pt
        ++ (if hasPre = true then '-' :: pre else []))) with
      | none => none
      | some (mnv, r3) =>
        match r3 with
        | '.' :: r4 =>
          match parseInt r4 with
          | none => none
          | some (ptv, r5) => parseTail true maj mnv ptv true true r5
        | _ => parseTail true maj mnv 0 true false r3)
      = some ⟨true, maj, mn, pt, true, true, (if hasPre = true then pre else []),
          hasPre, [], false⟩ := by
    rw [parseInt_render mn hmn0 hmn1 _ (hdot _)]
    exact step3
  simp only [parseParts]
  have hvtrue : ('v' == 'v' || 'v' == 'V') = true := rfl
  simp only [hvtrue, Bool.true_and,
    append_isEmpty_false (writeInt maj) _ (writeInt_ne_nil maj hmaj0),
    Bool.false_eq_true, if_false, if_true]
  rw [parseInt_render maj hmaj0 hmaj1 _ (hdot _)]
  exact step2

/-- C5: parsing any string into a valid version, rendering its canonical
form and parsing again yields a valid version that compares equal to the
first parse and whose own canonical rendering is textually identical —
canonicalization is idempotent and precedence-preserving. -/
theorem c5_canonical_idempotent (s : List Char) (h : (Parse s).valid = true) :
    (Parse (Canonical (Parse s))).valid = true
      ∧ Compare (Parse (Canonical (Parse s))) (Parse s) = 0
      ∧ Canonical (Parse (Canonical (Parse s))) = Canonical (Parse s) := by
  obtain ⟨hm0, hm1, hn0, hn1, hp0, hp1, hpre, hnopre⟩ := Parse_valid_sound s h
  set v := Parse s with hvdef
  have hcan : Canonical v = 'v' :: (writeInt v.major ++ '.' :: (writeInt v.minor
      ++ '.' :: (writeInt v.patch
      ++ (if v.flags.hasPre = true then '-' :: v.prerelease else [])))) := by
    cases hb : v.flags.hasPre with
    | true =>
      obtain ⟨hvp, hne⟩ := hpre hb
      simp [Canonical, h, hb, hne]
    | false => simp [Canonical, h, hb]
  have hpp : parseParts (Canonical v)
      = some ⟨true, v.major, v.minor, v.patch, true, true,
          (if v.flags.hasPre = true then v.prerelease else []),
          v.flags.hasPre, [], false⟩ := by
    rw [hcan]
    exact parseParts_render v.major v.minor v.patch hm0 hm1 hn0 hn1 hp0 hp1
      v.prerelease v.flags.hasPre hpre
  have hrep : Parse (Canonical v)
      = { original := Canonical v,
          prerelease := (if v.flags.hasPre = true then v.prerelease else []),
          build := [], major := v.major, minor := v.minor, patch := v.patch,
          flags := ⟨true, true, true, true, v.flags.hasPre, false⟩,
          valid := true } := by
    unfold Parse
    rw [hpp]
  refine ⟨by rw [hrep], ?_, ?_⟩
  · rw [hrep]
    cases hb : v.flags.hasPre with
    | true => simp [Compare, h, hb, comparePrerelease_self]
    | false => simp [Compare, h, hb]
  · rw [hrep]
    cases hb : v.flags.hasPre with
    | true =>
      obtain ⟨hvp, hne⟩ := hpre hb
      simp [Canonical, h, hb, hne]
    | false => simp [Canonical, h, hb, hnopre hb]

/-- C5 witness: idempotent canonicalization observed on the concrete
input `v1.2.3-rc.1+build.5`. -/
theorem c5_witness :
    (Parse (Canonical (Parse ((r"v1.2.3-rc.1+build.5").toList)))).valid = true
      ∧ Compare (Parse (Canonical (Parse ((r"v1.2.3-rc.1+build.5").toList))))
          (Parse ((r"v1.2.3-rc.1+build.5").toList)) = 0
      ∧ Canonical (Parse (Canonical (Parse ((r"v1.2.3-rc.1+build.5").toList))))
          = Canonical (Parse ((r"v1.2.3-rc.1+build.5").toList)) :=
  c5_canonical_idempotent ((r"v1.2.3-rc.1+build.5").toList) (by decide)

/-! ### The byte-wise string order is a strict linear order -/

theorem lexLt_irrefl (x : List Char) : lexLt x x = false := by
  induction x with
  | nil => rfl
  | cons c t ih =>
    show (if c < c then true else if c < c then false else lexLt t t) = false
    rw [if_neg (lt_irrefl c), if_neg (lt_irrefl c), ih]

theorem lexLt_asymm (x y : List Char) (h : lexLt x y = true) : lexLt y x = false := by
  induction x generalizing y with
  | nil =>
    cases y with
    | nil => exact absurd h (by simp [lexLt])
    | cons d ys => rfl
  | cons c xs ih =>
    cases y with
    | nil => exact absurd h (by simp [lexLt])
    | cons d ys =>
      have h' : (if c < d then true else if d < c then false else lexLt xs ys) = true := h
      show (if d < c then true else if c < d then false else lexLt ys xs) = false
      by_cases h1 : c < d
      · rw [if_neg (asymm h1), if_pos h1]
      · rw [if_neg h1] at h'
        by_cases h2 : d < c
        · rw [if_pos h2] at h'
          exact absurd h' (by simp)
        · rw [if_neg h2] at h'
          rw [if_neg h2, if_neg h1, ih ys h']

theorem lexLt_trans (x y z : List Char) (h1 : lexLt x y = true)
    (h2 : lexLt y z = true) : lexLt x z = true := by
  induction x generalizing y z with
  | nil =>
    cases z with
    | nil => exact absurd h2 (by cases y <;> simp [lexLt])
    | cons e zs => rfl
  | cons c xs ih =>
    cases y with
    | nil => exact absurd h1 (by simp [lexLt])
    | cons d ys =>
      cases z with
      | nil => exact absurd h2 (by simp [lexLt])
      | cons e zs =>
        have h1' : (if c < d then true else if d < c then false else lexLt xs ys)
            = true := h1
        have h2' : (if d < e then true else if e < d then false else lexLt ys zs)
            = true := h2
        show (if c < e then true else if e < c then false else lexLt xs zs) = true
        by_cases hcd : c < d
        · by_cases hde : d < e
          · rw [if_pos (lt_trans hcd hde)]
          · rw [if_neg hde] at h2'
            by_cases hed : e < d
            · rw [if_pos hed] at h2'
              exact absurd h2' (by simp)
            · have : d = e := le_antisymm (not_lt.1 hed) (not_lt.1 hde)
              subst this
              rw [if_pos hcd]
        · rw [if_neg hcd] at h1'
          by_cases hdc : d < c
          · rw [if_pos hdc] at h1'
            exact absurd h1' (by simp)
          · rw [if_neg hdc] at h1'
            have hce : c = d := le_antisymm (not_lt.1 hdc) (not_lt.1 hcd)
            subst hce
            by_cases hde : c < e
            · rw [if_pos hde]
            · rw [if_neg hde] at h2'
              by_cases hed : e < c
              · rw [if_pos hed] at h2'
                exact absurd h2' (by simp)
              · rw [if_neg hed] at h2'
                rw [if_neg hde, if_neg hed]
                exact ih ys zs h1' h2'

theorem lexLt_total (x y : List Char) (h : x ≠ y) :
    lexLt x y = true ∨ lexLt y x = true := by
  induction x generalizing y with
  | nil =>
    cases y with
    | nil => exact absurd rfl h
    | cons d ys => exact Or.inl rfl
  | cons c xs ih =>
    cases y with
    | nil => exact Or.inr rfl
    | cons d ys =>
      rcases lt_trichotomy c d with hlt | heq | hgt
      · exact Or.inl (by show (if c < d then true else _) = true; rw [if_pos hlt])
      · subst heq
        have hne : xs ≠ ys := by
          intro hx
          exact h (by rw [hx])
        rcases ih ys hne with htail | htail
        · refine Or.inl ?_
          show (if c < c then true else if c < c then false else lexLt xs ys) = true
          rw [if_neg (lt_irrefl c), if_neg (lt_irrefl c), htail]
        · refine Or.inr ?_
          show (if c < c then true else if c < c then false else lexLt ys xs) = true
          rw [if_neg (lt_irrefl c), if_neg (lt_irrefl c), htail]
      · exact Or.inr (by show (if d < c then true else _) = true; rw [if_pos hgt])

theorem lexLt_not_lt (x y : List Char) (h : lexLt x y = false) :
    x = y ∨ lexLt y x = true := by
  by_cases hxy : x = y
  · exact Or.inl hxy
  · rcases lexLt_total x y hxy with ht | ht
    · exact absurd ht (by rw [h]; simp)
    · exact Or.inr ht

/-- The strict-order characterization of a `-1` answer of `identCmp`. -/
def identLtProps (x y : List Char) : Prop :=
  (isNum x = true ∧ isNum y = false)
    ∨ (isNum x = true ∧ isNum y = true ∧
        (x.length < y.length ∨ (x.length = y.length ∧ lexLt x y = true)))
    ∨ (isNum x = false ∧ isNum y = false ∧ lexLt x y = true)

theorem identCmp_cases (x y : List Char) :
    identCmp x y = 0 ∨ identCmp x y = -1 ∨ identCmp x y = 1 := by
  unfold identCmp
  split_ifs <;> simp

theorem identCmp_eq_zero_iff (x y : List Char) : identCmp x y = 0 ↔ x = y := by
  unfold identCmp
  split_ifs <;> simp_all

theorem identCmp_neg_iff (x y : List Char) :
    identCmp x y = -1 ↔ x ≠ y ∧ identLtProps x y := by
  unfold identCmp identLtProps
  split_ifs with h1 h2 h3 h4 h5 h6
  · exact iff_of_false (by decide) (fun hc => hc.1 h1)
  · refine iff_of_true rfl ⟨h1, Or.inl ⟨h3, ?_⟩⟩
    rcases Bool.eq_false_or_eq_true (isNum y) with hy | hy
    · exact absurd (h3.trans hy.symm) h2
    · exact hy
  · refine iff_of_false (by decide) ?_
    intro hc
    have hx : isNum x = false := by
      rcases Bool.eq_false_or_eq_true (isNum x) with hx | hx
      · exact absurd hx h3
      · exact hx
    rcases hc.2 with ⟨ha, _⟩ | ⟨ha, _, _⟩ | ⟨_, hb, _⟩
    · exact absurd ha (by rw [hx]; simp)
    · exact absurd ha (by rw [hx]; simp)
    · have hy : isNum y = true := by
        rcases Bool.eq_false_or_eq_true (isNum y) with hy | hy
        · exact hy
        · exact absurd (hx.trans hy.symm) h2
      exact absurd (hb.symm.trans hy) (by simp)
  · have heq : isNum x = isNum y := by
      by_contra hc
      exact h2 hc
    exact iff_of_true rfl ⟨h1, Or.inr (Or.inl ⟨h4.1, heq ▸ h4.1, Or.inl h4.2⟩)⟩
  · have heq : isNum x = isNum y := by
      by_contra hc
      exact h2 hc
    refine iff_of_false (by decide) ?_
    intro hc
    rcases hc.2 with ⟨ha, hb⟩ | ⟨ha, hb, hlen⟩ | ⟨ha, _, _⟩
    · exact absurd (ha.symm.trans (heq.trans hb)) (by simp)
    · rcases hlen with hl | ⟨hl, _⟩
      · omega
      · omega
    · exact absurd (ha.symm.trans h5.1) (by simp)
  · have heq : isNum x = isNum y := by
      by_contra hc
      exact h2 hc
    refine iff_of_true rfl ⟨h1, ?_⟩
    rcases Bool.eq_false_or_eq_true (isNum x) with hx | hx
    · have hy : isNum y = true := heq.symm.trans hx
      have hlen : x.length = y.length := by
        have n4 : ¬(x.length < y.length) := fun hc => h4 ⟨hx, hc⟩
        have n5 : ¬(y.length < x.length) := fun hc => h5 ⟨hx, hc⟩
        omega
      exact Or.inr (Or.inl ⟨hx, hy, Or.inr ⟨hlen, h6⟩⟩)
    · have hy : isNum y = false := heq.symm.trans hx
      exact Or.inr (Or.inr ⟨hx, hy, h6⟩)
  · have heq : isNum x = isNum y := by
      by_contra hc
      exact h2 hc
    refine iff_of_false (by decide) ?_
    intro hc
    rcases hc.2 with ⟨ha, hb⟩ | ⟨ha, hb, hlen⟩ | ⟨_, _, hl⟩
    · exact absurd (ha.symm.trans (heq.trans hb)) (by simp)
    · rcases hlen with hl | ⟨_, hl⟩
      · exact h4 ⟨ha, hl⟩
      · exact h6 hl
    · exact h6 hl

theorem identLtProps_exhaustive (x y : List Char) (h : x ≠ y) :
    identLtProps x y ∨ identLtProps y x := by
  unfold identLtProps
  rcases Bool.eq_false_or_eq_true (isNum x) with hx | hx <;>
    rcases Bool.eq_false_or_eq_true (isNum y) with hy | hy
  · rcases lt_trichotomy x.length y.length with hl | hl | hl
    · exact Or.inl (Or.inr (Or.inl ⟨hx, hy, Or.inl hl⟩))
    · rcases lexLt_total x y h with hlex | hlex
      · exact Or.inl (Or.inr (Or.inl ⟨hx, hy, Or.inr ⟨hl, hlex⟩⟩))
      · exact Or.inr (Or.inr (Or.inl ⟨hy, hx, Or.inr ⟨hl.symm, hlex⟩⟩))
    · exact Or.inr (Or.inr (Or.inl ⟨hy, hx, Or.inl hl⟩))
  · exact Or.inl (Or.inl ⟨hx, hy⟩)
  · exact Or.inr (Or.inl ⟨hy, hx⟩)
  · rcases lexLt_total x y h with hlex | hlex
    · exact Or.inl (Or.inr (Or.inr ⟨hx, hy, hlex⟩))
    · exact Or.inr (Or.inr (Or.inr ⟨hy, hx, hlex⟩))

theorem identLtProps_exclusive (x y : List Char) :
    ¬(identLtProps x y ∧ identLtProps y x) := by
  rintro ⟨h1, h2⟩
  rcases h1 with ⟨a1, b1⟩ | ⟨a1, b1, c1⟩ | ⟨a1, b1, c1⟩
  · rcases h2 with ⟨a2, b2⟩ | ⟨a2, b2, c2⟩ | ⟨a2, b2, c2⟩
    · exact absurd (b1.symm.trans a2) (by simp)
    · exact absurd (b1.symm.trans a2) (by simp)
    · exact absurd (a1.symm.trans b2) (by simp)
  · rcases h2 with ⟨a2, b2⟩ | ⟨a2, b2, c2⟩ | ⟨a2, b2, c2⟩
    · exact absurd (a1.symm.trans b2) (by simp)
    · rcases c1 with hl1 | ⟨he1, hx1⟩ <;> rcases c2 with hl2 | ⟨he2, hx2⟩
      · omega
      · omega
      · omega
      · exact absurd hx2 (by rw [lexLt_asymm x y hx1]; simp)
    · exact absurd (b1.symm.trans a2) (by simp)
  · rcases h2 with ⟨a2, b2⟩ | ⟨a2, b2, c2⟩ | ⟨a2, b2, c2⟩
    · exact absurd (b1.symm.trans a2) (by simp)
    · exact absurd (b1.symm.trans a2) (by simp)
    · exact absurd c2 (by rw [lexLt_asymm x y c1]; simp)

theorem identLtProps_trans (x y z : List Char) (h1 : identLtProps x y)
    (h2 : identLtProps y z) : identLtProps x z := by
  rcases h1 with ⟨a1, b1⟩ | ⟨a1, b1, c1⟩ | ⟨a1, b1, c1⟩
  · rcases h2 with ⟨a2, b2⟩ | ⟨a2, b2, c2⟩ | ⟨a2, b2, c2⟩
    · exact absurd (b1.symm.trans a2) (by simp)
    · exact absurd (b1.symm.trans a2) (by simp)
    · exact Or.inl ⟨a1, b2⟩
  · rcases h2 with ⟨a2, b2⟩ | ⟨a2, b2, c2⟩ | ⟨a2, b2, c2⟩
    · exact Or.inl ⟨a1, b2⟩
    · rcases c1 with hl1 | ⟨he1, hx1⟩ <;> rcases c2 with hl2 | ⟨he2, hx2⟩
      · exact Or.inr (Or.inl ⟨a1, b2, Or.inl (by omega)⟩)
      · exact Or.inr (Or.inl ⟨a1, b2, Or.inl (by omega)⟩)
      · exact Or.inr (Or.inl ⟨a1, b2, Or.inl (by omega)⟩)
      · exact Or.inr (Or.inl ⟨a1, b2, Or.inr ⟨he1.trans he2,
          lexLt_trans x y z hx1 hx2⟩⟩)
    · exact absurd (b1.symm.trans a2) (by simp)
  · rcases h2 with ⟨a2, b2⟩ | ⟨a2, b2, c2⟩ | ⟨a2, b2, c2⟩
    · exact absurd (b1.symm.trans a2) (by simp)
    · exact absurd (b1.symm.trans a2) (by simp)
    · exact Or.inr (Or.inr ⟨a1, b2, lexLt_trans x y z c1 c2⟩)

theorem identCmp_antisymm (x y : List Char) : identCmp y x = -identCmp x y := by
  by_cases hxy : x = y
  · subst hxy
    simp [identCmp]
  · rcases identCmp_cases x y with h | h | h
    · exact absurd ((identCmp_eq_zero_iff x y).1 h) hxy
    · rw [h]
      rcases identCmp_cases y x with h2 | h2 | h2
      · exact absurd ((identCmp_eq_zero_iff y x).1 h2) (Ne.symm hxy)
      · have p1 := ((identCmp_neg_iff x y).1 h).2
        have p2 := ((identCmp_neg_iff y x).1 h2).2
        exact absurd ⟨p1, p2⟩ (identLtProps_exclusive x y)
      · rw [h2]
        decide
    · rw [h]
      rcases identCmp_cases y x with h2 | h2 | h2
      · exact absurd ((identCmp_eq_zero_iff y x).1 h2) (Ne.symm hxy)
      · rw [h2]
      · exfalso
        rcases identLtProps_exhaustive x y hxy with hp | hp
        · have hneg : identCmp x y = -1 := (identCmp_neg_iff x y).2 ⟨hxy, hp⟩
          rw [h] at hneg
          exact absurd hneg (by decide)
        · have hneg : identCmp y x = -1 := (identCmp_neg_iff y x).2 ⟨Ne.symm hxy, hp⟩
          rw [h2] at hneg
          exact absurd hneg (by decide)

theorem identCmp_trans_neg (x y z : List Char) (h1 : identCmp x y = -1)
    (h2 : identCmp y z = -1) : identCmp x z = -1 := by
  obtain ⟨hxy, p1⟩ := (identCmp_neg_iff x y).1 h1
  obtain ⟨hyz, p2⟩ := (identCmp_neg_iff y z).1 h2
  have pxz := identLtProps_trans x y z p1 p2
  have hxz : x ≠ z := by
    rintro rfl
    exact identLtProps_exclusive x y ⟨p1, p2⟩
  exact (identCmp_neg_iff x z).2 ⟨hxz, pxz⟩

theorem cmpPreLists_cases (xs ys : List (List Char)) :
    cmpPreLists xs ys = -1 ∨ cmpPreLists xs ys = 1 := by
  induction xs generalizing ys with
  | nil => exact Or.inl rfl
  | cons x xs' ih =>
    cases ys with
    | nil => exact Or.inr rfl
    | cons y ys' =>
      have e : cmpPreLists (x :: xs') (y :: ys')
          = if x = y then cmpPreLists xs' ys' else identCmp x y := rfl
      rw [e]
      by_cases hxy : x = y
      · rw [if_pos hxy]
        exact ih ys'
      · rw [if_neg hxy]
        rcases identCmp_cases x y with h | h | h
        · exact absurd ((identCmp_eq_zero_iff x y).1 h) hxy
        · exact Or.inl h
        · exact Or.inr h

theorem cmpPreLists_antisymm (xs ys : List (List Char)) (h : xs ≠ ys) :
    cmpPreLists ys xs = -cmpPreLists xs ys := by
  induction xs generalizing ys with
  | nil =>
    cases ys with
    | nil => exact absurd rfl h
    | cons y ys' =>
      show (1 : Int) = -(-1)
      decide
  | cons x xs' ih =>
    cases ys with
    | nil =>
      show (-1 : Int) = -(1)
      decide
    | cons y ys' =>
      have e1 : cmpPreLists (x :: xs') (y :: ys')
          = if x = y then cmpPreLists xs' ys' else identCmp x y := rfl
      have e2 : cmpPreLists (y :: ys') (x :: xs')
          = if y = x then cmpPreLists ys' xs' else identCmp y x := rfl
      rw [e1, e2]
      by_cases hxy : x = y
      · subst hxy
        rw [if_pos rfl, if_pos rfl]
        refine ih ys' ?_
        intro hcc
        exact h (by rw [hcc])
      · rw [if_neg hxy, if_neg (Ne.symm hxy)]
        exact identCmp_antisymm x y

theorem cmpPreLists_trans_neg (xs ys zs : List (List Char)) (hxy : xs ≠ ys)
    (hyz : ys ≠ zs) (h1 : cmpPreLists xs ys = -1) (h2 : cmpPreLists ys zs = -1) :
    cmpPreLists xs zs = -1 ∧ xs ≠ zs := by
  induction xs generalizing ys zs with
  | nil =>
    cases zs with
    | nil =>
      cases ys with
      | nil => exact absurd rfl hxy
      | cons y ys' =>
        have e : cmpPreLists (y :: ys') ([] : List (List Char)) = 1 := rfl
        rw [e] at h2
        exact absurd h2 (by decide)
    | cons z zs' => exact ⟨rfl, by simp⟩
  | cons x xs' ih =>
    cases ys with
    | nil =>
      have e : cmpPreLists (x :: xs') ([] : List (List Char)) = 1 := rfl
      rw [e] at h1
      exact absurd h1 (by decide)
    | cons y ys' =>
      cases zs with
      | nil =>
        have e : cmpPreLists (y :: ys') ([] : List (List Char)) = 1 := rfl
        rw [e] at h2
        exact absurd h2 (by decide)
      | cons z zs' =>
        have e1 : cmpPreLists (x :: xs') (y :: ys')
            = if x = y then cmpPreLists xs' ys' else identCmp x y := rfl
        have e2 : cmpPreLists (y :: ys') (z :: zs')
            = if y = z then cmpPreLists ys' zs' else identCmp y z := rfl
        have e3 : cmpPreLists (x :: xs') (z :: zs')
            = if x = z then cmpPreLists xs' zs' else identCmp x z := rfl
        rw [e1] at h1
        rw [e2] at h2
        rw [e3]
        by_cases hxy' : x = y
        · rw [if_pos hxy'] at h1
          by_cases hyz' : y = z
          · rw [if_pos hyz'] at h2
            have hxz : x = z := hxy'.trans hyz'
            have hts : xs' ≠ ys' := by
              intro hcc
              exact hxy (by rw [hxy', hcc])
            have hts2 : ys' ≠ zs' := by
              intro hcc
              exact hyz (by rw [hyz', hcc])
            obtain ⟨hc1, hc2⟩ := ih ys' zs' hts hts2 h1 h2
            rw [if_pos hxz]
            refine ⟨hc1, ?_⟩
            intro hcc
            rw [List.cons.injEq] at hcc
            exact hc2 hcc.2
          · rw [if_neg hyz'] at h2
            have hxz : x ≠ z := by
              rw [hxy']
              exact ((identCmp_neg_iff y z).1 h2).1
            rw [if_neg hxz, hxy']
            refine ⟨h2, ?_⟩
            intro hcc
            rw [List.cons.injEq] at hcc
            exact hxz (hxy'.trans hcc.1)
        · rw [if_neg hxy'] at h1
          by_cases hyz' : y = z
          · have hxz : x ≠ z := by
              rw [← hyz']
              exact ((identCmp_neg_iff x y).1 h1).1
            rw [if_neg hxz, ← hyz']
            refine ⟨h1, ?_⟩
            intro hcc
            rw [List.cons.injEq] at hcc
            exact hxz (hcc.1.trans hyz')
          · rw [if_neg hyz'] at h2
            have htr := identCmp_trans_neg x y z h1 h2
            have hxz : x ≠ z := ((identCmp_neg_iff x z).1 htr).1
            rw [if_neg hxz]
            refine ⟨htr, ?_⟩
            intro hcc
            rw [List.cons.injEq] at hcc
            exact hxz hcc.1

theorem comparePrerelease_cases (a b : List Char) :
    comparePrerelease a b = -1 ∨ comparePrerelease a b = 0
      ∨ comparePrerelease a b = 1 := by
  unfold comparePrerelease
  split_ifs
  · exact Or.inr (Or.inl rfl)
  · exact Or.inr (Or.inr rfl)
  · exact Or.inl rfl
  · rcases cmpPreLists_cases (splitOnDot a) (splitOnDot b) with h | h
    · exact Or.inl h
    · exact Or.inr (Or.inr h)

theorem comparePrerelease_eq_zero_iff (a b : List Char) :
    comparePrerelease a b = 0 ↔ a = b := by
  unfold comparePrerelease
  split_ifs with h1 h2 h3
  · simp [h1]
  · exact iff_of_false (by decide) h1
  · exact iff_of_false (by decide) h1
  · refine iff_of_false ?_ h1
    rcases cmpPreLists_cases (splitOnDot a) (splitOnDot b) with h | h <;>
      rw [h] <;> decide

theorem comparePrerelease_antisymm (a b : List Char) :
    comparePrerelease b a = -comparePrerelease a b := by
  by_cases hab : a = b
  · subst hab
    rw [comparePrerelease_self]
    decide
  · unfold comparePrerelease
    rw [if_neg hab, if_neg (Ne.symm hab)]
    by_cases ha : a = []
    · subst ha
      have hb : b ≠ [] := Ne.symm hab
      rw [if_neg hb, if_pos rfl, if_pos rfl]
    · by_cases hb : b = []
      · subst hb
        rw [if_pos rfl, if_neg ha, if_pos rfl]
        decide
      · rw [if_neg hb, if_neg ha, if_neg ha, if_neg hb]
        exact cmpPreLists_antisymm (splitOnDot a) (splitOnDot b)
          (fun hc => hab (splitOnDot_injective a b hc))

theorem comparePrerelease_trans_neg (a b c : List Char)
    (h1 : comparePrerelease a b = -1) (h2 : comparePrerelease b c = -1) :
    comparePrerelease a c = -1 := by
  by_cases hab : a = b
  · subst hab
    exact h2
  · by_cases hbc : b = c
    · subst hbc
      exact h1
    · by_cases hac : a = c
      · exfalso
        subst hac
        have hanti := comparePrerelease_antisymm a b
        rw [h1, h2] at hanti
        exact absurd hanti (by decide)
      · have ha : a ≠ [] := by
          intro hcc
          subst hcc
          unfold comparePrerelease at h1
          rw [if_neg hab, if_pos rfl] at h1
          exact absurd h1 (by decide)
        have hb : b ≠ [] := by
          intro hcc
          subst hcc
          unfold comparePrerelease at h2
          rw [if_neg hbc, if_pos rfl] at h2
          exact absurd h2 (by decide)
        by_cases hc : c = []
        · subst hc
          unfold comparePrerelease
          rw [if_neg hac, if_neg ha, if_pos rfl]
        · unfold comparePrerelease at h1 h2 ⊢
          rw [if_neg hab, if_neg ha, if_neg hb] at h1
          rw [if_neg hbc, if_neg hb, if_neg hc] at h2
          rw [if_neg hac, if_neg ha, if_neg hc]
          have hsab : splitOnDot a ≠ splitOnDot b :=
            fun hcc => hab (splitOnDot_injective a b hcc)
          have hsbc : splitOnDot b ≠ splitOnDot c :=
            fun hcc => hbc (splitOnDot_injective b c hcc)
          exact (cmpPreLists_trans_neg _ _ _ hsab hsbc h1 h2).1

theorem ite_int_antisymm (a b X Y : Int) (hXY : X = -Y) :
    (if b ≠ a then (if b < a then (-1 : Int) else 1) else X)
      = -(if a ≠ b then (if a < b then (-1 : Int) else 1) else Y) := by
  rcases lt_trichotomy a b with h | h | h
  · rw [if_pos (Ne.symm (ne_of_lt h)), if_pos (ne_of_lt h), if_neg (asymm h), if_pos h]
    decide
  · subst h
    rw [if_neg (by simp), if_neg (by simp)]
    exact hXY
  · rw [if_pos (ne_of_lt h), if_pos (Ne.symm (ne_of_lt h)), if_pos h, if_neg (asymm h)]

theorem Compare_both_invalid (v w : Semver) (hv : v.valid = false)
    (hw : w.valid = false) : Compare v w = 0 := by
  unfold Compare
  rw [hv, hw]
  rfl

theorem Compare_left_invalid (v w : Semver) (hv : v.valid = false)
    (hw : w.valid = true) : Compare v w = -1 := by
  unfold Compare
  rw [hv, hw]
  rfl

theorem Compare_right_invalid (v w : Semver) (hv : v.valid = true)
    (hw : w.valid = false) : Compare v w = 1 := by
  unfold Compare
  rw [hv, hw]
  rfl

theorem Compare_valid_eq (v w : Semver) (hv : v.valid = true) (hw : w.valid = true) :
    Compare v w =
      (if v.major ≠ w.major then (if v.major < w.major then -1 else 1)
        else if v.minor ≠ w.minor then (if v.minor < w.minor then -1 else 1)
        else if v.patch ≠ w.patch then (if v.patch < w.patch then -1 else 1)
        else match v.flags.hasPre, w.flags.hasPre with
          | false, false => 0
          | false, true => 1
          | true, false => -1
          | true, true => comparePrerelease v.prerelease w.prerelease) := by
  unfold Compare
  rw [hv, hw]
  simp only [Bool.not_true, Bool.false_and, Bool.false_eq_true, if_false]

theorem Compare_cases (v w : Semver) :
    Compare v w = -1 ∨ Compare v w = 0 ∨ Compare v w = 1 := by
  rcases Bool.eq_false_or_eq_true v.valid with hv | hv <;>
    rcases Bool.eq_false_or_eq_true w.valid with hw | hw
  · rw [Compare_valid_eq v w hv hw]
    split_ifs
    · exact Or.inl rfl
    · exact Or.inr (Or.inr rfl)
    · exact Or.inl rfl
    · exact Or.inr (Or.inr rfl)
    · exact Or.inl rfl
    · exact Or.inr (Or.inr rfl)
    · rcases Bool.eq_false_or_eq_true v.flags.hasPre with hp | hp <;>
        rcases Bool.eq_false_or_eq_true w.flags.hasPre with hq | hq
      · have hm : (match v.flags.hasPre, w.flags.hasPre with
            | false, false => (0 : Int)
            | false, true => 1
            | true, false => -1
            | true, true => comparePrerelease v.prerelease w.prerelease)
            = comparePrerelease v.prerelease w.prerelease := by rw [hp, hq]
        rw [hm]
        exact comparePrerelease_cases _ _
      · have hm : (match v.flags.hasPre, w.flags.hasPre with
            | false, false => (0 : Int)
            | false, true => 1
            | true, false => -1
            | true, true => comparePrerelease v.prerelease w.prerelease)
            = -1 := by rw [hp, hq]
        rw [hm]
        exact Or.inl rfl
      · have hm : (match v.flags.hasPre, w.flags.hasPre with
            | false, false => (0 : Int)
            | false, true => 1
            | true, false => -1
            | true, true => comparePrerelease v.prerelease w.prerelease)
            = 1 := by rw [hp, hq]
        rw [hm]
        exact Or.inr (Or.inr rfl)
      · have hm : (match v.flags.hasPre, w.flags.hasPre with
            | false, false => (0 : Int)
            | false, true => 1
            | true, false => -1
            | true, true => comparePrerelease v.prerelease w.prerelease)
            = 0 := by rw [hp, hq]
        rw [hm]
        exact Or.inr (Or.inl rfl)
  · rw [Compare_right_invalid v w hv hw]
    exact Or.inr (Or.inr rfl)
  · rw [Compare_left_invalid v w hv hw]
    exact Or.inl rfl
  · rw [Compare_both_invalid v w hv hw]
    exact Or.inr (Or.inl rfl)

theorem Compare_antisymm (v w : Semver) : Compare w v = -Compare v w := by
  rcases Bool.eq_false_or_eq_true v.valid with hv | hv <;>
    rcases Bool.eq_false_or_eq_true w.valid with hw | hw
  · rw [Compare_valid_eq w v hw hv, Compare_valid_eq v w hv hw]
    refine ite_int_antisymm _ _ _ _ (ite_int_antisymm _ _ _ _ (ite_int_antisymm _ _ _ _ ?_))
    cases hp : v.flags.hasPre <;> cases hq : w.flags.hasPre
    · exact (by decide : (0 : Int) = -0)
    · exact (by decide : (-1 : Int) = -(1))
    · exact (by decide : (1 : Int) = -(-1))
    · exact comparePrerelease_antisymm v.prerelease w.prerelease
  · rw [Compare_left_invalid w v hw hv, Compare_right_invalid v w hv hw]
  · rw [Compare_right_invalid w v hw hv, Compare_left_invalid v w hv hw]
    decide
  · rw [Compare_both_invalid w v hw hv, Compare_both_invalid v w hv hw]
    decide

theorem cmpStep_zero_iff (a b t : Int) :
    ((if a ≠ b then (if a < b then (-1 : Int) else 1) else t) = 0)
      ↔ (a = b ∧ t = 0) := by
  by_cases h1 : a = b
  · rw [if_neg (not_not_intro h1)]
    exact ⟨fun h => ⟨h1, h⟩, fun h => h.2⟩
  · rw [if_pos h1]
    by_cases h2 : a < b
    · rw [if_pos h2]
      exact iff_of_false (by decide) (fun h => h1 h.1)
    · rw [if_neg h2]
      exact iff_of_false (by decide) (fun h => h1 h.1)

theorem cmpStep_neg_iff (a b t : Int) :
    ((if a ≠ b then (if a < b then (-1 : Int) else 1) else t) = -1)
      ↔ (a < b ∨ (a = b ∧ t = -1)) := by
  by_cases h1 : a = b
  · rw [if_neg (not_not_intro h1)]
    constructor
    · exact fun h => Or.inr ⟨h1, h⟩
    · rintro (h | ⟨_, h⟩)
      · exact absurd h1 (ne_of_lt h)
      · exact h
  · rw [if_pos h1]
    by_cases h2 : a < b
    · rw [if_pos h2]
      exact iff_of_true rfl (Or.inl h2)
    · rw [if_neg h2]
      refine iff_of_false (by decide) ?_
      rintro (h | ⟨h, _⟩)
      · exact h2 h
      · exact h1 h

theorem preMatch_zero_iff (p q : Bool) (cp : Int) :
    ((match p, q with
        | false, false => (0 : Int)
        | false, true => 1
        | true, false => -1
        | true, true => cp) = 0)
      ↔ (p = q ∧ (p = true → cp = 0)) := by
  cases p <;> cases q
  · exact iff_of_true rfl ⟨rfl, fun hc => absurd hc (by decide)⟩
  · exact iff_of_false (fun hc => (by decide : ¬((1 : Int) = 0)) hc)
      (fun hc => absurd hc.1 (by decide))
  · exact iff_of_false (fun hc => (by decide : ¬((-1 : Int) = 0)) hc)
      (fun hc => absurd hc.1 (by decide))
  · constructor
    · exact fun h => ⟨rfl, fun _ => h⟩
    · exact fun h => h.2 rfl

theorem preMatch_neg_iff (p q : Bool) (cp : Int) :
    ((match p, q with
        | false, false => (0 : Int)
        | false, true => 1
        | true, false => -1
        | true, true => cp) = -1)
      ↔ (p = true ∧ (q = false ∨ (q = true ∧ cp = -1))) := by
  cases p <;> cases q
  · exact iff_of_false (fun hc => (by decide : ¬((0 : Int) = -1)) hc)
      (fun hc => absurd hc.1 (by decide))
  · exact iff_of_false (fun hc => (by decide : ¬((1 : Int) = -1)) hc)
      (fun hc => absurd hc.1 (by decide))
  · exact iff_of_true rfl ⟨rfl, Or.inl rfl⟩
  · constructor
    · exact fun h => ⟨rfl, Or.inr ⟨rfl, h⟩⟩
    · rintro ⟨_, h | ⟨_, h⟩⟩
      · exact absurd h (by decide)
      · exact h

theorem Compare_zero_inv (v w : Semver) (h : Compare v w = 0) :
    (v.valid = false ∧ w.valid = false)
      ∨ (v.valid = true ∧ w.valid = true ∧ v.major = w.major ∧ v.minor = w.minor
          ∧ v.patch = w.patch ∧ v.flags.hasPre = w.flags.hasPre
          ∧ (v.flags.hasPre = true → v.prerelease = w.prerelease)) := by
  rcases Bool.eq_false_or_eq_true v.valid with hv | hv <;>
    rcases Bool.eq_false_or_eq_true w.valid with hw | hw
  · rw [Compare_valid_eq v w hv hw, cmpStep_zero_iff, cmpStep_zero_iff, cmpStep_zero_iff,
      preMatch_zero_iff] at h
    obtain ⟨e1, e2, e3, hpq, hcp⟩ := h
    exact Or.inr ⟨hv, hw, e1, e2, e3, hpq,
      fun hp => (comparePrerelease_eq_zero_iff _ _).1 (hcp hp)⟩
  · rw [Compare_right_invalid v w hv hw] at h
    exact absurd h (by decide)
  · rw [Compare_left_invalid v w hv hw] at h
    exact absurd h (by decide)
  · exact Or.inl ⟨hv, hw⟩

theorem Compare_zero_congr_left (v w u : Semver) (h : Compare v w = 0) :
    Compare v u = Compare w u := by
  rcases Compare_zero_inv v w h with ⟨hv, hw⟩ | ⟨hv, hw, h1, h2, h3, h4, h5⟩
  · rcases Bool.eq_false_or_eq_true u.valid with hu | hu
    · rw [Compare_left_invalid v u hv hu, Compare_left_invalid w u hw hu]
    · rw [Compare_both_invalid v u hv hu, Compare_both_invalid w u hw hu]
  · rcases Bool.eq_false_or_eq_true u.valid with hu | hu
    · rw [Compare_valid_eq v u hv hu, Compare_valid_eq w u hw hu, h1, h2, h3, h4]
      rcases Bool.eq_false_or_eq_true w.flags.hasPre with hp | hp
      · rw [h5 (h4.trans hp)]
      · rw [hp]
        cases hq : u.flags.hasPre <;> rfl
    · rw [Compare_right_invalid v u hv hu, Compare_right_invalid w u hw hu]

theorem Compare_valid_neg_iff (v w : Semver) (hv : v.valid = true) (hw : w.valid = true) :
    Compare v w = -1 ↔
      (v.major < w.major ∨ (v.major = w.major ∧
        (v.minor < w.minor ∨ (v.minor = w.minor ∧
          (v.patch < w.patch ∨ (v.patch = w.patch ∧
            (v.flags.hasPre = true ∧ (w.flags.hasPre = false ∨ (w.flags.hasPre = true ∧
              comparePrerelease v.prerelease w.prerelease = -1))))))))) := by
  rw [Compare_valid_eq v w hv hw, cmpStep_neg_iff, cmpStep_neg_iff, cmpStep_neg_iff,
    preMatch_neg_iff]

theorem Compare_trans_neg (v w u : Semver) (h1 : Compare v w = -1)
    (h2 : Compare w u = -1) : Compare v u = -1 := by
  rcases Bool.eq_false_or_eq_true u.valid with hu | hu
  · rcases Bool.eq_false_or_eq_true w.valid with hw | hw
    · rcases Bool.eq_false_or_eq_true v.valid with hv | hv
      · -- all valid: lexicographic transitivity over the product order
        have H1 := (Compare_valid_neg_iff v w hv hw).1 h1
        have H2 := (Compare_valid_neg_iff w u hw hu).1 h2
        refine (Compare_valid_neg_iff v u hv hu).2 ?_
        rcases H1 with h | ⟨e1, H1⟩
        · rcases H2 with h' | ⟨e1', _⟩
          · exact Or.inl (lt_trans h h')
          · exact Or.inl (by rw [← e1']; exact h)
        · rcases H2 with h' | ⟨e1', H2⟩
          · exact Or.inl (by rw [e1]; exact h')
          · refine Or.inr ⟨e1.trans e1', ?_⟩
            rcases H1 with h | ⟨e2, H1⟩
            · rcases H2 with h' | ⟨e2', _⟩
              · exact Or.inl (lt_trans h h')
              · exact Or.inl (by rw [← e2']; exact h)
            · rcases H2 with h' | ⟨e2', H2⟩
              · exact Or.inl (by rw [e2]; exact h')
              · refine Or.inr ⟨e2.trans e2', ?_⟩
                rcases H1 with h | ⟨e3, H1⟩
                · rcases H2 with h' | ⟨e3', _⟩
                  · exact Or.inl (lt_trans h h')
                  · exact Or.inl (by rw [← e3']; exact h)
                · rcases H2 with h' | ⟨e3', H2⟩
                  · exact Or.inl (by rw [e3]; exact h')
                  · refine Or.inr ⟨e3.trans e3', ?_⟩
                    obtain ⟨hp, hrest⟩ := H1
                    obtain ⟨hp', hrest'⟩ := H2
                    refine ⟨hp, ?_⟩
                    rcases hrest with hq | ⟨_, hcp⟩
                    · exact absurd (hq.symm.trans hp') (by decide)
                    · rcases hrest' with hq' | ⟨hq', hcp'⟩
                      · exact Or.inl hq'
                      · exact Or.inr ⟨hq',
                          comparePrerelease_trans_neg _ _ _ hcp hcp'⟩
      · exact Compare_left_invalid v u hv hu
    · exfalso
      rcases Bool.eq_false_or_eq_true v.valid with hv | hv
      · rw [Compare_right_invalid v w hv hw] at h1
        exact absurd h1 (by decide)
      · rw [Compare_both_invalid v w hv hw] at h1
        exact absurd h1 (by decide)
  · exfalso
    rcases Bool.eq_false_or_eq_true w.valid with hw | hw
    · rw [Compare_right_invalid w u hw hu] at h2
      exact absurd h2 (by decide)
    · rw [Compare_both_invalid w u hw hu] at h2
      exact absurd h2 (by decide)

theorem less_iff (a b : Semver) :
    lessSemver a b = true
      ↔ (Compare a b = -1
          ∨ (Compare a b = 0 ∧ lexLt (tieStr a) (tieStr b) = true)) := by
  simp only [lessSemver]
  rcases Compare_cases a b with h | h | h <;> rw [h]
  · rw [if_pos (by decide : ((-1 : Int) ≠ 0))]
    exact iff_of_true (by decide) (Or.inl rfl)
  · rw [if_neg (by decide : ¬((0 : Int) ≠ 0))]
    constructor
    · exact fun hl => Or.inr ⟨rfl, hl⟩
    · rintro (hc | ⟨_, hl⟩)
      · exact absurd hc (by decide)
      · exact hl
  · rw [if_pos (by decide : ((1 : Int) ≠ 0))]
    refine iff_of_false (by decide) ?_
    rintro (hc | ⟨hc, _⟩) <;> exact absurd hc (by decide)

theorem less_false_iff (a b : Semver) :
    lessSemver a b = false
      ↔ (Compare a b = 1
          ∨ (Compare a b = 0 ∧ lexLt (tieStr a) (tieStr b) = false)) := by
  simp only [lessSemver]
  rcases Compare_cases a b with h | h | h <;> rw [h]
  · rw [if_pos (by decide : ((-1 : Int) ≠ 0))]
    refine iff_of_false (by decide) ?_
    rintro (hc | ⟨hc, _⟩) <;> exact absurd hc (by decide)
  · rw [if_neg (by decide : ¬((0 : Int) ≠ 0))]
    constructor
    · exact fun hl => Or.inr ⟨rfl, hl⟩
    · rintro (hc | ⟨_, hl⟩)
      · exact absurd hc (by decide)
      · exact hl
  · rw [if_pos (by decide : ((1 : Int) ≠ 0))]
    exact iff_of_true (by decide) (Or.inl rfl)

theorem less_asymm (a b : Semver) (h : lessSemver a b = true) :
    lessSemver b a = false := by
  rcases (less_iff a b).1 h with hc | ⟨hc, hl⟩
  · refine (less_false_iff b a).2 (Or.inl ?_)
    rw [Compare_antisymm a b, hc]
    decide
  · refine (less_false_iff b a).2 (Or.inr ⟨?_, lexLt_asymm _ _ hl⟩)
    rw [Compare_antisymm a b, hc]
    decide

theorem sortLE_total (a b : Semver) : sortLE a b ∨ sortLE b a := by
  unfold sortLE
  rcases Bool.eq_false_or_eq_true (lessSemver b a) with h | h
  · exact Or.inr (less_asymm b a h)
  · exact Or.inl h

theorem sortLE_trans (a b c : Semver) (hab : sortLE a b) (hbc : sortLE b c) :
    sortLE a c := by
  unfold sortLE at hab hbc ⊢
  rcases Bool.eq_false_or_eq_true (lessSemver c a) with h | h
  · exfalso
    rcases (less_iff c a).1 h with hca | ⟨hca, hlca⟩ <;>
      rcases (less_false_iff b a).1 hab with hba | ⟨hba, hlba⟩ <;>
        rcases (less_false_iff c b).1 hbc with hcb | ⟨hcb, hlcb⟩
    · have t1 := Compare_antisymm a b
      have t2 := Compare_antisymm b c
      have e1 : Compare a b = -1 := by omega
      have e2 : Compare b c = -1 := by omega
      have e3 := Compare_trans_neg a b c e1 e2
      have t3 := Compare_antisymm a c
      omega
    · have e := Compare_zero_congr_left c b a hcb
      omega
    · have e := Compare_zero_congr_left b a c hba
      have t1 := Compare_antisymm b c
      have t2 := Compare_antisymm c a
      omega
    · have e := Compare_zero_congr_left c b a hcb
      omega
    · have e := Compare_zero_congr_left c a b hca
      have t1 := Compare_antisymm a b
      omega
    · have e := Compare_zero_congr_left c a b hca
      have t1 := Compare_antisymm a b
      omega
    · have e := Compare_zero_congr_left c a b hca
      have t1 := Compare_antisymm a b
      omega
    · rcases lexLt_not_lt _ _ hlcb with he | hlt
      · have hba' : lexLt (tieStr b) (tieStr a) = true := by
          rw [← he]
          exact hlca
        rw [hba'] at hlba
        exact absurd hlba (by decide)
      · have := lexLt_trans _ _ _ hlt hlca
        rw [this] at hlba
        exact absurd hlba (by decide)
  · exact h

/-- C8: sorting a version list ascending (`List.Sort` with `List.Less`,
modelled by insertion sort over the relation `sort.Sort` guarantees of the
output) yields a permutation of the input that is pairwise ordered by the
comparator; consequently, for any two positions `i < j` of the sorted list:
a valid entry is never followed by an invalid one (all invalid entries come
first), two invalid entries are in ascending lexicographic byte order of
their tie-break text (original text, or canonical rendering when empty),
two valid entries are in ascending precedence order (`Compare` never says
the earlier one is greater), and any `Compare`-tie is broken by ascending
lexicographic byte order of the tie-break text. -/
theorem c8_sort_ascending (l : List Semver) :
    (sortAscending l).Perm l
    ∧ List.Pairwise sortLE (sortAscending l)
    ∧ ∀ i j : Fin (sortAscending l).length, (i : Nat) < (j : Nat) →
        (((sortAscending l).get i).valid = true → ((sortAscending l).get j).valid = true)
        ∧ ((((sortAscending l).get i).valid = false
              ∧ ((sortAscending l).get j).valid = false)
            → lexLt (tieStr ((sortAscending l).get j))
                (tieStr ((sortAscending l).get i)) = false)
        ∧ ((((sortAscending l).get i).valid = true
              ∧ ((sortAscending l).get j).valid = true)
            → Compare ((sortAscending l).get i) ((sortAscending l).get j) ≠ 1)
        ∧ (Compare ((sortAscending l).get i) ((sortAscending l).get j) = 0
            → lexLt (tieStr ((sortAscending l).get j))
                (tieStr ((sortAscending l).get i)) = false) := by
  haveI : IsTotal Semver sortLE := ⟨sortLE_total⟩
  haveI : IsTrans Semver sortLE := ⟨sortLE_trans⟩
  refine ⟨List.perm_insertionSort sortLE l, List.sorted_insertionSort sortLE l, ?_⟩
  intro i j hij
  have hle0 := (List.pairwise_iff_get.1 (List.sorted_insertionSort sortLE l)) i j hij
  have hle : lessSemver ((sortAscending l).get j) ((sortAscending l).get i) = false := hle0
  refine ⟨?_, ?_, ?_, ?_⟩
  · intro hv
    rcases Bool.eq_false_or_eq_true ((sortAscending l).get j).valid with hb | hb
    · exact hb
    · exfalso
      have hc := Compare_left_invalid _ _ hb hv
      have ht := (less_iff _ _).2 (Or.inl hc)
      exact absurd (ht.symm.trans hle) (by decide)
  · rintro ⟨ha, hb⟩
    rcases (less_false_iff _ _).1 hle with hc | ⟨_, hl⟩
    · rw [Compare_both_invalid _ _ hb ha] at hc
      exact absurd hc (by decide)
    · exact hl
  · rintro ⟨ha, hb⟩ hc
    have t := Compare_antisymm ((sortAscending l).get i) ((sortAscending l).get j)
    have hneg : Compare ((sortAscending l).get j) ((sortAscending l).get i) = -1 := by
      omega
    have ht := (less_iff _ _).2 (Or.inl hneg)
    exact absurd (ht.symm.trans hle) (by decide)
  · intro hc
    rcases (less_false_iff _ _).1 hle with hc' | ⟨_, hl⟩
    · exfalso
      have t := Compare_antisymm ((sortAscending l).get i) ((sortAscending l).get j)
      omega
    · exact hl

theorem c8_witness :
    sortAscending
        [Parse ((r"1.10.0").toList), Parse ((r"bogus").toList),
          Parse ((r"1.2.0-rc.1+b").toList), Parse ((r"1.2.0").toList)]
      = [Parse ((r"bogus").toList), Parse ((r"1.2.0-rc.1+b").toList),
          Parse ((r"1.2.0").toList), Parse ((r"1.10.0").toList)]
    ∧ (sortAscending
        [Parse ((r"1.10.0").toList), Parse ((r"bogus").toList),
          Parse ((r"1.2.0-rc.1+b").toList), Parse ((r"1.2.0").toList)]).Perm
        [Parse ((r"1.10.0").toList), Parse ((r"bogus").toList),
          Parse ((r"1.2.0-rc.1+b").toList), Parse ((r"1.2.0").toList)] :=
  ⟨by decide,
    (c8_sort_ascending
      [Parse ((r"1.10.0").toList), Parse ((r"bogus").toList),
        Parse ((r"1.2.0-rc.1+b").toList), Parse ((r"1.2.0").toList)]).1⟩
